import Mathlib

set_option maxHeartbeats 1000000

/-!
Verification development for the WikiPyApp repository (src/app.py).

The Python program is shallow-embedded below:
* `strptime_iso` / `strptime_ts` model `datetime.datetime.strptime` with the
  formats "%Y-%m-%d" and "%Y%m%d%H" as used on lines 39-40 and 73 of
  src/app.py.  CPython compiles these formats to the regular expression
  fragments  Y ↦ \d\d\d\d,  m ↦ 1[0-2]|0[1-9]|[1-9],
  d ↦ 3[01]|[12]\d|0[1-9]|[1-9]| [1-9]  (the last alternative is a space
  followed by a digit),  H ↦ 2[0-3]|[0-1]\d|\d  (Lib/_strptime.py),
  matches them against a prefix of the input with the usual left-biased
  backtracking, rejects the input when unconverted characters remain, and
  finally builds a `datetime` object, which validates the calendar date.
  The class \d is modelled in its ASCII range [0-9]; CPython's \d (with no
  re.ASCII flag) also matches the non-ASCII Unicode decimal digits of the
  running interpreter's Unicode tables, so every statement about the set of
  accepted date strings is made for ASCII inputs only.
* `extract_title` models lines 23-28, including the behaviour of
  `urllib.parse.urlparse` (leading C0-control/space stripping, removal of
  tab/CR/LF, scheme and netloc splitting, fragment, query and params
  separation) and of `str.split` with a separator.
* `process_data`, `get_pageviews`, `merged_df`, `quarter_df` and `pipeline`
  model lines 51-109: record construction, the status-code check, the pandas
  outer merge on "date" followed by `sort_values` (missing keys sort last),
  and the quarterly group-by with per-column NaN-skipping means.
-/

namespace WikiPyApp

/-- Value of a decimal digit character: the regex class \d in its ASCII
range, `none` for any other character.  CPython's \d additionally matches
non-ASCII Unicode decimal digits (the exact set depends on the
interpreter's Unicode tables), which is why the acceptance theorems below
quantify over ASCII strings only. -/
def dig? (c : Char) : Option Nat :=
  match c with
  | '9' => some 9
  | '8' => some 8
  | '7' => some 7
  | '6' => some 6
  | '5' => some 5
  | '4' => some 4
  | '3' => some 3
  | '2' => some 2
  | '1' => some 1
  | '0' => some 0
  | _ => none

/-- Decimal digit character for a value below ten. -/
def digitChar (n : Nat) : Char :=
  match n with
  | 0 => '0'
  | 1 => '1'
  | 2 => '2'
  | 3 => '3'
  | 4 => '4'
  | 5 => '5'
  | 6 => '6'
  | 7 => '7'
  | 8 => '8'
  | 9 => '9'
  | _ => '*'

/-- Regex fragment \d\d\d\d (the %Y directive): exactly four digits. -/
def matchY (s : List Char) : Option (Nat × List Char) :=
  match s with
  | c1 :: c2 :: c3 :: c4 :: r =>
    match dig? c1, dig? c2, dig? c3, dig? c4 with
    | some v1, some v2, some v3, some v4 =>
      some (1000 * v1 + 100 * v2 + 10 * v3 + v4, r)
    | _, _, _, _ => none
  | _ => none

/-- Regex alternative 1[0-2]. -/
def tok10to12 (s : List Char) : Option (Nat × List Char) :=
  match s with
  | '1' :: c :: r =>
    match dig? c with
    | some v => if v ≤ 2 then some (10 + v, r) else none
    | none => none
  | _ => none

/-- Regex alternative 0[1-9]. -/
def tok01to09 (s : List Char) : Option (Nat × List Char) :=
  match s with
  | '0' :: c :: r =>
    match dig? c with
    | some v => if 1 ≤ v then some (v, r) else none
    | none => none
  | _ => none

/-- Regex alternative [1-9]. -/
def tok1to9 (s : List Char) : Option (Nat × List Char) :=
  match s with
  | c :: r =>
    match dig? c with
    | some v => if 1 ≤ v then some (v, r) else none
    | none => none
  | _ => none

/-- Regex alternative 3[01]. -/
def tok30to31 (s : List Char) : Option (Nat × List Char) :=
  match s with
  | '3' :: c :: r =>
    match dig? c with
    | some v => if v ≤ 1 then some (30 + v, r) else none
    | none => none
  | _ => none

/-- Regex alternative [12]\d. -/
def tok10to29 (s : List Char) : Option (Nat × List Char) :=
  match s with
  | c1 :: c2 :: r =>
    match dig? c1, dig? c2 with
    | some v1, some v2 =>
      if 1 ≤ v1 ∧ v1 ≤ 2 then some (10 * v1 + v2, r) else none
    | _, _ => none
  | _ => none

/-- Regex alternative 2[0-3]. -/
def tok20to23 (s : List Char) : Option (Nat × List Char) :=
  match s with
  | '2' :: c :: r =>
    match dig? c with
    | some v => if v ≤ 3 then some (20 + v, r) else none
    | none => none
  | _ => none

/-- Regex alternative [0-1]\d. -/
def tok00to19 (s : List Char) : Option (Nat × List Char) :=
  match s with
  | c1 :: c2 :: r =>
    match dig? c1, dig? c2 with
    | some v1, some v2 => if v1 ≤ 1 then some (10 * v1 + v2, r) else none
    | _, _ => none
  | _ => none

/-- Regex alternative " [1-9]" (a space followed by a digit), the final
alternative of CPython's %d directive. -/
def tokSpace1to9 (s : List Char) : Option (Nat × List Char) :=
  match s with
  | ' ' :: c :: r =>
    match dig? c with
    | some v => if 1 ≤ v then some (v, r) else none
    | none => none
  | _ => none

/-- Regex alternative \d. -/
def tokAnyDigit (s : List Char) : Option (Nat × List Char) :=
  match s with
  | c :: r =>
    match dig? c with
    | some v => some (v, r)
    | none => none
  | _ => none

/-- Alternatives of the %m directive, in regex preference order. -/
def mAlts : List (List Char → Option (Nat × List Char)) :=
  [tok10to12, tok01to09, tok1to9]

/-- Alternatives of the %d directive, in regex preference order:
3[01]|[12]\d|0[1-9]|[1-9]| [1-9]. -/
def dAlts : List (List Char → Option (Nat × List Char)) :=
  [tok30to31, tok10to29, tok01to09, tok1to9, tokSpace1to9]

/-- Alternatives of the %H directive, in regex preference order. -/
def hAlts : List (List Char → Option (Nat × List Char)) :=
  [tok20to23, tok00to19, tokAnyDigit]

/-- Ordered alternation with backtracking: try each alternative in turn; on a
match run the continuation `k`, and if it fails fall through to the next
alternative, exactly as the regex engine backtracks across the directive
boundaries of a strptime format (each alternative here is a fixed character
sequence, so this search is the regex's left-biased match). -/
def tryAlts {α : Type} (alts : List (List Char → Option (Nat × List Char)))
    (s : List Char) (k : Nat → List Char → Option α) : Option α :=
  match alts with
  | [] => none
  | f :: fs =>
    match f s with
    | some (v, rest) =>
      match k v rest with
      | some r => some r
      | none => tryAlts fs s k
    | none => tryAlts fs s k

/-- Literal '-' of the format string: consume one dash, then continue. -/
def litDash {α : Type} (k : List Char → Option α) : List Char → Option α
  | '-' :: r => k r
  | _ => none

/-- Structural part of `strptime(s, "%Y-%m-%d")`: the compiled regex
(?P&lt;Y&gt;\d\d\d\d)-(?P&lt;m&gt;...)-(?P&lt;d&gt;...) matched against `s`, requiring that no
unconverted characters remain. -/
def strpIsoShape (s : List Char) : Option (Nat × Nat × Nat) :=
  (matchY s).bind (fun p =>
    litDash (fun s2 =>
      tryAlts mAlts s2 (fun m s3 =>
        litDash (fun s4 =>
          tryAlts dAlts s4 (fun d s5 =>
            if s5 = [] then some (p.1, m, d) else none)) s3)) p.2)

/-- Leap year rule of the proleptic Gregorian calendar (Python `datetime`). -/
def isLeap (y : Nat) : Bool :=
  y % 4 = 0 && (!(y % 100 = 0) || y % 400 = 0)

/-- Number of days of month `m` in year `y` (Python `datetime`). -/
def daysInMonth (y m : Nat) : Nat :=
  if m = 2 then (if isLeap y then 29 else 28)
  else if m = 4 ∨ m = 6 ∨ m = 9 ∨ m = 11 then 30
  else 31

/-- Model of `datetime.datetime.strptime(s, "%Y-%m-%d").date()` (src/app.py
lines 39-40): the regex match followed by the construction of the `datetime`
object, which rejects year 0 and days past the end of the month.  `none`
models the raised `ValueError` ("DateFormat" in the specification). -/
def strptime_iso (s : List Char) : Option (Nat × Nat × Nat) :=
  match strpIsoShape s with
  | some (y, m, d) =>
    if 1 ≤ y ∧ d ≤ daysInMonth y m then some (y, m, d) else none
  | none => none

/-- Structural part of `strptime(ts, "%Y%m%d%H")`: four digit year directly
followed by the month, day and hour directives with regex backtracking. -/
def strpTsShape (s : List Char) : Option ((Nat × Nat × Nat) × Nat) :=
  match matchY s with
  | none => none
  | some (y, s1) =>
    tryAlts mAlts s1 (fun m s2 =>
      tryAlts dAlts s2 (fun d s3 =>
        tryAlts hAlts s3 (fun h s4 =>
          if s4 = [] then some ((y, m, d), h) else none)))

/-- Model of `datetime.datetime.strptime(ts, "%Y%m%d%H")` followed by
`.date()` (src/app.py line 73): calendar validation then dropping the hour;
`none` models the exception swallowed on line 74-75. -/
def parse_item_date (s : List Char) : Option (Nat × Nat × Nat) :=
  match strpTsShape s with
  | some ((y, m, d), _) =>
    if 1 ≤ y ∧ d ≤ daysInMonth y m then some (y, m, d) else none
  | none => none

/-- One element of the JSON `items` array returned by the pageviews API: both
fields may be absent (`item.get` is used on lines 71 and 76). -/
structure Item where
  timestamp : Option (List Char)
  views : Option Int
deriving DecidableEq

/-- One row of the per-article DataFrame built by `process_data`: a possibly
null date and an integer view count. -/
structure DailyRec where
  date : Option (Nat × Nat × Nat)
  views : Int
deriving DecidableEq

/-- Record built for a single item (body of the loop on lines 70-77): a
missing timestamp is treated as "", an unparsable timestamp gives a null
date, a missing views field defaults to 0. -/
def mkRecord (it : Item) : DailyRec :=
  { date := parse_item_date (it.timestamp.getD [])
    views := it.views.getD 0 }

/-- Model of `process_data` (lines 68-78): one record per item, in order. -/
def process_data (items : List Item) : List DailyRec :=
  items.map mkRecord

/-- Abstract HTTP response: a status code and the optional `items` field of
the JSON body (`data.get("items", [])`, line 63). -/
structure HttpResp where
  status : Nat
  items : Option (List Item)

/-- Result of one fetch: the returned record list, plus whether the warning
message of line 65 was printed. -/
structure FetchOut where
  items : List Item
  warned : Bool
deriving DecidableEq

/-- Model of `get_pageviews` (lines 51-66) applied to the single response of
its one HTTP request: on status 200 the items of the body (default `[]`),
otherwise a printed warning and an empty list. -/
def get_pageviews (resp : HttpResp) : FetchOut :=
  if resp.status = 200 then { items := resp.items.getD [], warned := false }
  else { items := [], warned := true }

/-! URL handling: model of `urllib.parse.urlparse(url).path` and of
`extract_title` (src/app.py lines 23-28). -/

/-- C0 control characters and space, stripped from the front of a URL by
`urlsplit`. -/
def ctrlOrSpace (c : Char) : Bool :=
  decide (c.toNat ≤ 32)

/-- Tab, carriage return and line feed, removed from anywhere inside a URL by
`urlsplit`. -/
def unsafeUrlChar (c : Char) : Bool :=
  c = '\t' || c = '\r' || c = '\n'

/-- Input normalisation performed by `urlsplit`. -/
def sanitizeUrl (s : List Char) : List Char :=
  (s.dropWhile ctrlOrSpace).filter (fun c => !unsafeUrlChar c)

/-- Characters allowed after the first one in a URL scheme. -/
def schemeChar (c : Char) : Bool :=
  c.isAlpha || c.isDigit || c = '+' || c = '-' || c = '.'

/-- Scheme splitting of `urlsplit`: when the part before the first colon is a
letter followed by scheme characters, drop it together with the colon. -/
def dropScheme (s : List Char) : List Char :=
  if (s.takeWhile (fun c => decide (c ≠ ':'))).length < s.length then
    match s.takeWhile (fun c => decide (c ≠ ':')) with
    | [] => s
    | c :: rest =>
      if c.isAlpha && rest.all schemeChar then
        s.drop ((s.takeWhile (fun c => decide (c ≠ ':'))).length + 1)
      else s
  else s

/-- Characters that terminate the network location part. -/
def notNetlocDelim (c : Char) : Bool :=
  decide (c ≠ '/') && decide (c ≠ '?') && decide (c ≠ '#')

/-- Netloc splitting of `urlsplit`: after a leading "//" the netloc extends to
the next '/', '?' or '#'; a netloc with unbalanced square brackets makes
`urlsplit` raise ValueError("Invalid IPv6 URL"), modelled by `none`. -/
def afterNetloc (s : List Char) : Option (List Char) :=
  match s with
  | '/' :: '/' :: rest =>
    if ('[' ∈ rest.takeWhile notNetlocDelim
          ∧ ']' ∉ rest.takeWhile notNetlocDelim)
        ∨ (']' ∈ rest.takeWhile notNetlocDelim
          ∧ '[' ∉ rest.takeWhile notNetlocDelim) then none
    else some (rest.dropWhile notNetlocDelim)
  | _ => some s

/-- Params splitting of `urlparse`: in the segment after the last '/' (or in
the whole string when it has no '/'), cut at the first ';'. -/
def splitParams (p : List Char) : List Char :=
  if '/' ∈ p then
    (p.reverse.dropWhile (fun c => decide (c ≠ '/'))).reverse
      ++ (p.reverse.takeWhile (fun c => decide (c ≠ '/'))).reverse.takeWhile
        (fun c => decide (c ≠ ';'))
  else p.takeWhile (fun c => decide (c ≠ ';'))

/-- Model of `urllib.parse.urlparse(url).path`: sanitisation, scheme and
netloc removal, then cutting fragment (first '#'), query (first '?') and
params; `none` models the ValueError raised on unbalanced brackets in the
netloc. -/
def urlparse_path (url : List Char) : Option (List Char) :=
  match afterNetloc (dropScheme (sanitizeUrl url)) with
  | none => none
  | some u =>
    some (splitParams
      ((u.takeWhile (fun c => decide (c ≠ '#'))).takeWhile
        (fun c => decide (c ≠ '?'))))

/-- The separator "/wiki/" used both by `startswith` and by `split`. -/
def wikiSep : List Char := ['/', 'w', 'i', 'k', 'i', '/']

/-- The five characters "/wiki" (the separator without its final slash); an
occurrence of the separator that starts strictly inside a list `a` of a
concatenation `a ++ wikiSep ++ b` lies entirely inside `a ++ wikiHead`. -/
def wikiHead : List Char := ['/', 'w', 'i', 'k', 'i']

/-- First occurrence of `sep` in a list: the part before it and the part
after it, `none` when `sep` does not occur (Python `str.find` / the engine of
`str.split`). -/
def splitFirst (sep : List Char) : List Char → Option (List Char × List Char)
  | [] => if sep.isEmpty then some ([], []) else none
  | c :: rest =>
    if sep.isPrefixOf (c :: rest) then some ([], (c :: rest).drop sep.length)
    else (splitFirst sep rest).map (fun p => (c :: p.1, p.2))

/-- Fuelled worker for `str.split("/wiki/")`: each cut removes at least the
six separator characters, so an amount of fuel equal to the length of the
input is always sufficient, and when the fuel reaches zero the remaining
input is necessarily empty and carries no further separator. -/
def pySplitWikiAux : Nat → List Char → List (List Char)
  | 0, s => [s]
  | Nat.succ fuel, s =>
    match splitFirst wikiSep s with
    | none => [s]
    | some (pre, post) => pre :: pySplitWikiAux fuel post

/-- Python `path.split("/wiki/")`: repeatedly cut at the first occurrence of
the separator. -/
def pySplitWiki (s : List Char) : List (List Char) :=
  pySplitWikiAux s.length s

/-- Error raised by `extract_title`: the explicit `ValueError` of line 28
("InvalidURL" in the specification), or the `ValueError` that `urlparse`
itself raises on an invalid IPv6 netloc. -/
inductive TitleError where
  | invalidURL
  | invalidIPv6
deriving DecidableEq

/-- Model of `extract_title` (lines 23-28): parse the URL; if the path starts
with "/wiki/", return element 1 of `path.split("/wiki/")`, otherwise raise. -/
def extract_title (url : List Char) : Except TitleError (List Char) :=
  match urlparse_path url with
  | none => .error .invalidIPv6
  | some path =>
    if wikiSep.isPrefixOf path then .ok ((pySplitWiki path).getD 1 [])
    else .error .invalidURL

/-! Merge and aggregation: model of lines 89-109 (pandas outer merge on
"date", `sort_values`, quarterly group-by with per-column means). -/

/-- Comparison of calendar dates (Python `datetime.date` ordering). -/
def dateLe (x y : Nat × Nat × Nat) : Bool :=
  decide (x.1 < y.1 ∨ (x.1 = y.1 ∧
    (x.2.1 < y.2.1 ∨ (x.2.1 = y.2.1 ∧ x.2.2 ≤ y.2.2))))

/-- Key order used by `sort_values("date")`: dates ascending, missing keys
placed last (the default `na_position` is "last"). -/
def keyLe : Option (Nat × Nat × Nat) → Option (Nat × Nat × Nat) → Bool
  | some x, some y => dateLe x y
  | some _, none => true
  | none, some _ => false
  | none, none => true

/-- Row of the merged DataFrame: the join key and the two view columns, each
possibly missing (NaN) for dates present in only one input. -/
structure MRow where
  date : Option (Nat × Nat × Nat)
  a : Option Int
  b : Option Int
deriving DecidableEq

/-- Row order backing `sort_values("date")`. -/
def rowLe (r s : MRow) : Bool := keyLe r.date s.date

/-- Insertion into a sorted list (generic sorting helper). -/
def insertLe {α : Type} (le : α → α → Bool) (a : α) : List α → List α
  | [] => [a]
  | x :: xs => if le a x then a :: x :: xs else x :: insertLe le a xs

/-- Insertion sort (generic sorting helper; pandas only guarantees a sorted
result, which any comparison sort realises). -/
def isort {α : Type} (le : α → α → Bool) : List α → List α
  | [] => []
  | x :: xs => insertLe le x (isort le xs)

/-- Generic concatenation of mapped lists. -/
def concatMap {α β : Type} (f : α → List β) : List α → List β
  | [] => []
  | x :: xs => f x ++ concatMap f xs

/-- Unsorted body of `pd.merge(df1, df2, on="date", how="outer")`: every row
of `df1` is paired with each row of `df2` carrying an equal key (pandas
matches missing keys with missing keys) or, when there is none, completed
with a missing value; rows of `df2` whose key never occurs in `df1` are then
appended with a missing first column. -/
def outerRows (df1 df2 : List DailyRec) : List MRow :=
  concatMap (fun r =>
    match df2.filter (fun r2 => decide (r2.date = r.date)) with
    | [] => [{ date := r.date, a := some r.views, b := none }]
    | ms => ms.map (fun r2 =>
        { date := r.date, a := some r.views, b := some r2.views })) df1
  ++ (df2.filter (fun r2 =>
        df1.all (fun r1 => decide (¬ r1.date = r2.date)))).map
      (fun r2 => { date := r2.date, a := none, b := some r2.views })

/-- Model of `merged_df` after line 95: the outer merge sorted ascending by
date, rows with a missing date last. -/
def merged_df (df1 df2 : List DailyRec) : List MRow :=
  isort rowLe (outerRows df1 df2)

/-- Calendar quarter of a date, as the pair (year, quarter number), the
content of `dt.to_period('Q')` on line 104. -/
def qOf (d : Nat × Nat × Nat) : Nat × Nat :=
  (d.1, (d.2.1 - 1) / 3 + 1)

/-- Order on quarter periods. -/
def qLe (x y : Nat × Nat) : Bool :=
  decide (x.1 < y.1 ∨ (x.1 = y.1 ∧ x.2 ≤ y.2))

/-- Quarter key of a merged row; `none` (NaT) for a missing date, which
`groupby` then drops. -/
def qKey (r : MRow) : Option (Nat × Nat) := r.date.map qOf

/-- Distinct quarters occurring among the rows with a parseable date, sorted
ascending: the group keys of `groupby('quarter')` (which sorts keys and drops
the NaT group). -/
def quarterKeys (rows : List MRow) : List (Nat × Nat) :=
  isort qLe (rows.filterMap qKey).dedup

/-- The first column's values inside one quarter group: exactly the non-null
entries, as rationals (the mean of a pandas column skips NaN). -/
def valsA (rows : List MRow) (q : Nat × Nat) : List ℚ :=
  rows.filterMap (fun r =>
    if r.date.map qOf = some q then r.a.map (fun v => (v : ℚ)) else none)

/-- The second column's values inside one quarter group. -/
def valsB (rows : List MRow) (q : Nat × Nat) : List ℚ :=
  rows.filterMap (fun r =>
    if r.date.map qOf = some q then r.b.map (fun v => (v : ℚ)) else none)

/-- Mean of a column's values within a group: NaN (here `none`) when the
group holds no non-null value for that column. -/
def meanOpt (l : List ℚ) : Option ℚ :=
  if l.isEmpty then none else some (l.sum / l.length)

/-- Quarter label of line 109: the characters of "Q&lt;n&gt; &lt;year&gt;". -/
def qLabel (q : Nat × Nat) : List Char :=
  'Q' :: Nat.toDigits 10 q.2 ++ ' ' :: Nat.toDigits 10 q.1

/-- Row of the quarterly table. -/
structure QRow where
  q : Nat × Nat
  meanA : Option ℚ
  meanB : Option ℚ
  label : List Char
deriving DecidableEq

/-- Model of `quarter_df` (lines 103-109): one row per distinct quarter of
the parseable dates, sorted by quarter, with each column's mean taken over
that column's own non-null values, and the label "Q&lt;n&gt; &lt;year&gt;". -/
def quarter_df (rows : List MRow) : List QRow :=
  (quarterKeys rows).map (fun q =>
    { q := q, meanA := meanOpt (valsA rows q), meanB := meanOpt (valsB rows q)
      label := qLabel q })

/-- Model of the pipeline from line 86 on: build both DataFrames, abort with
the "no data" message and `SystemExit` (lines 89-91) when either is empty,
otherwise produce the merged table and the quarterly aggregate handed to the
chart. -/
def pipeline (items1 items2 : List Item) :
    Except Unit (List MRow × List QRow) :=
  let df1 := process_data items1
  let df2 := process_data items2
  if df1.isEmpty || df2.isEmpty then .error ()
  else
    let merged := merged_df df1 df2
    .ok (merged, quarter_df merged)

/-! Specification-side definitions used to state the claims. -/

/-- The eight characters with which every https article URL starts. -/
def httpsPrefix : List Char := ['h', 't', 't', 'p', 's', ':', '/', '/']

/-- Characters of a well-formed host part: no path/query/fragment delimiter,
no square bracket, none of the characters that `urlsplit` removes. -/
def hostOK (c : Char) : Bool :=
  !(c = '/' || c = '?' || c = '#' || c = '[' || c = ']'
    || c = '\t' || c = '\r' || c = '\n')

/-- Characters of a title that reaches `extract_title` unchanged: no query,
fragment or params delimiter and none of the characters removed by
`urlsplit`. -/
def titleOK (c : Char) : Bool :=
  !(c = '?' || c = '#' || c = ';' || c = '\t' || c = '\r' || c = '\n')

/-- Strict YYYY-MM-DD syntax: exactly four digits, a dash, two digits, a
dash, two digits (the claim's reading of "matching YYYY-MM-DD"). -/
def strictForm (s : List Char) : Bool :=
  match s with
  | [c1, c2, c3, c4, '-', c5, c6, '-', c7, c8] =>
    (dig? c1).isSome && (dig? c2).isSome && (dig? c3).isSome
    && (dig? c4).isSome && (dig? c5).isSome && (dig? c6).isSome
    && (dig? c7).isSome && (dig? c8).isSome
  | _ => false

/-- Character sequences the %m directive can consume, with the month value
they denote: "10"-"12", "01"-"09", or a single digit "1"-"9". -/
def monthTokVal (l : List Char) (v : Nat) : Prop :=
  (∃ c v2, l = ['1', c] ∧ dig? c = some v2 ∧ v2 ≤ 2 ∧ v = 10 + v2)
  ∨ (∃ c v2, l = ['0', c] ∧ dig? c = some v2 ∧ 1 ≤ v2 ∧ v = v2)
  ∨ (∃ c, l = [c] ∧ dig? c = some v ∧ 1 ≤ v)

/-- Character sequences the %d directive can consume, with the day value they
denote: "30"-"31", "10"-"29", "01"-"09", a single digit "1"-"9", or a
space-padded single digit " 1"-" 9". -/
def dayTokVal (l : List Char) (v : Nat) : Prop :=
  (∃ c v2, l = ['3', c] ∧ dig? c = some v2 ∧ v2 ≤ 1 ∧ v = 30 + v2)
  ∨ (∃ c1 c2 v1 v2, l = [c1, c2] ∧ dig? c1 = some v1 ∧ dig? c2 = some v2
      ∧ 1 ≤ v1 ∧ v1 ≤ 2 ∧ v = 10 * v1 + v2)
  ∨ (∃ c v2, l = ['0', c] ∧ dig? c = some v2 ∧ 1 ≤ v2 ∧ v = v2)
  ∨ (∃ c, l = [c] ∧ dig? c = some v ∧ 1 ≤ v)
  ∨ (∃ c v2, l = [' ', c] ∧ dig? c = some v2 ∧ 1 ≤ v2 ∧ v = v2)

/-- Character sequences the %m directive can consume. -/
def monthTok (l : List Char) : Prop := ∃ v, monthTokVal l v

/-- Character sequences the %d directive can consume. -/
def dayTok (l : List Char) : Prop := ∃ v, dayTokVal l v

/-- Lenient date syntax actually accepted by the %Y-%m-%d pattern on ASCII
input: a four-digit year, then a month of one or two digits and a day of one
or two digits or a space followed by one digit. -/
def lenientShape (s : List Char) : Prop :=
  ∃ y1 y2 y3 y4 mt dt,
    s = y1 :: y2 :: y3 :: y4 :: '-' :: (mt ++ '-' :: dt)
    ∧ (dig? y1).isSome = true ∧ (dig? y2).isSome = true
    ∧ (dig? y3).isSome = true ∧ (dig? y4).isSome = true
    ∧ monthTok mt ∧ dayTok dt

/-- Two-digit zero-padded decimal rendering. -/
def pad2 (n : Nat) : List Char := [digitChar (n / 10), digitChar (n % 10)]

/-- Four-digit zero-padded decimal rendering. -/
def pad4 (n : Nat) : List Char :=
  [digitChar (n / 1000), digitChar (n / 100 % 10), digitChar (n / 10 % 10),
    digitChar (n % 10)]

/-- Modelled from the spec: the `format` half of the round-trip property
"format(parse(s)) == s".  The repository parses YYYY-MM-DD strings but never
formats a date back to that form, so this formatter follows the
specification's YYYY-MM-DD wording with zero-padded fields. -/
def dateFormatISO (y m d : Nat) : List Char :=
  pad4 y ++ '-' :: pad2 m ++ '-' :: pad2 d

/-- Calendar dates representable in four-digit years (the range accepted by
Python `datetime.date`). -/
def validDate (y m d : Nat) : Prop :=
  1 ≤ y ∧ y ≤ 9999 ∧ 1 ≤ m ∧ m ≤ 12 ∧ 1 ≤ d ∧ d ≤ daysInMonth y m

/-! Generic facts about the sorting helper. -/

theorem mem_insertLe {α : Type} (le : α → α → Bool) (a b : α) (l : List α) :
    b ∈ insertLe le a l ↔ b = a ∨ b ∈ l := by
  induction l with
  | nil => simp [insertLe]
  | cons x xs ih =>
    by_cases h : le a x = true
    · simp [insertLe, h]
    · rw [insertLe, if_neg h]
      simp only [List.mem_cons, ih]
      tauto

theorem perm_insertLe {α : Type} (le : α → α → Bool) (a : α) (l : List α) :
    (insertLe le a l).Perm (a :: l) := by
  induction l with
  | nil => simp [insertLe]
  | cons x xs ih =>
    by_cases h : le a x = true
    · simp [insertLe, h]
    · simp only [insertLe, h, if_false]
      exact (ih.cons x).trans (List.Perm.swap a x xs)

theorem perm_isort {α : Type} (le : α → α → Bool) (l : List α) :
    (isort le l).Perm l := by
  induction l with
  | nil => simp [isort]
  | cons x xs ih =>
    exact (perm_insertLe le x (isort le xs)).trans (ih.cons x)

theorem length_isort {α : Type} (le : α → α → Bool) (l : List α) :
    (isort le l).length = l.length :=
  (perm_isort le l).length_eq

theorem mem_isort {α : Type} (le : α → α → Bool) (b : α) (l : List α) :
    b ∈ isort le l ↔ b ∈ l :=
  (perm_isort le l).mem_iff

theorem pairwise_insertLe {α : Type} (le : α → α → Bool)
    (htot : ∀ x y, le x y = true ∨ le y x = true)
    (htrans : ∀ x y z, le x y = true → le y z = true → le x z = true)
    (a : α) (l : List α) (h : l.Pairwise (fun x y => le x y = true)) :
    (insertLe le a l).Pairwise (fun x y => le x y = true) := by
  induction l with
  | nil => simp [insertLe]
  | cons x xs ih =>
    rcases List.pairwise_cons.mp h with ⟨hx, hxs⟩
    by_cases hle : le a x = true
    · simp only [insertLe, hle, if_true]
      refine List.pairwise_cons.mpr ⟨?_, h⟩
      intro y hy
      rcases List.mem_cons.mp hy with rfl | hy
      · exact hle
      · exact htrans a x y hle (hx y hy)
    · simp only [insertLe, hle, if_false]
      refine List.pairwise_cons.mpr ⟨?_, ih hxs⟩
      intro y hy
      rcases (mem_insertLe le a y xs).mp hy with hye | hy
      · rw [hye]
        rcases htot a x with hax | hxa
        · exact absurd hax hle
        · exact hxa
      · exact hx y hy

theorem pairwise_isort {α : Type} (le : α → α → Bool)
    (htot : ∀ x y, le x y = true ∨ le y x = true)
    (htrans : ∀ x y z, le x y = true → le y z = true → le x z = true)
    (l : List α) :
    (isort le l).Pairwise (fun x y => le x y = true) := by
  induction l with
  | nil => simp [isort]
  | cons x xs ih => exact pairwise_insertLe le htot htrans x (isort le xs) ih

theorem concatMap_eq_map {α β : Type} (f : α → List β) (g : α → β)
    (l : List α) (h : ∀ x ∈ l, f x = [g x]) :
    concatMap f l = l.map g := by
  induction l with
  | nil => rfl
  | cons x xs ih =>
    simp only [concatMap, List.map_cons, h x (List.mem_cons_self x xs)]
    rw [ih (fun y hy => h y (List.mem_cons_of_mem x hy))]
    rfl

theorem mem_concatMap {α β : Type} (f : α → List β) (l : List α) (x : α)
    (b : β) (hx : x ∈ l) (hb : b ∈ f x) : b ∈ concatMap f l := by
  induction l with
  | nil => cases hx
  | cons y ys ih =>
    rcases List.mem_cons.mp hx with rfl | hx
    · exact List.mem_append_left _ hb
    · exact List.mem_append_right _ (ih hx)

/-! Order facts for the concrete comparisons. -/

theorem rowLe_total (x y : MRow) : rowLe x y = true ∨ rowLe y x = true := by
  unfold rowLe
  cases hx : x.date <;> cases hy : y.date <;>
    simp [keyLe, dateLe] <;> omega

theorem rowLe_trans (x y z : MRow) (h1 : rowLe x y = true)
    (h2 : rowLe y z = true) : rowLe x z = true := by
  unfold rowLe at h1 h2 ⊢
  cases hx : x.date <;> cases hy : y.date <;> cases hz : z.date <;>
    rw [hx, hy] at h1 <;> rw [hy, hz] at h2 <;>
    simp [keyLe, dateLe] at h1 h2 ⊢ <;> omega

theorem qLe_total (x y : Nat × Nat) : qLe x y = true ∨ qLe y x = true := by
  simp [qLe]; omega

theorem qLe_trans (x y z : Nat × Nat) (h1 : qLe x y = true)
    (h2 : qLe y z = true) : qLe x z = true := by
  simp [qLe] at h1 h2 ⊢; omega

/-! Claim C5: non-200 responses yield an empty record list after the single
request, with a warning rather than an exception. -/

/-- Claim C5: for every HTTP response whose status code is not 200, the
single-attempt `get_pageviews` returns the empty record sequence and reports
the user-visible warning instead of raising. -/
theorem get_pageviews_non200_spec (resp : HttpResp) (h : resp.status ≠ 200) :
    get_pageviews resp = { items := [], warned := true } := by
  simp [get_pageviews, h]

/-- Witness for C5: a 404 response. -/
theorem get_pageviews_non200_spec_witness :
    get_pageviews { status := 404, items := some [] } =
      { items := [], warned := true } :=
  get_pageviews_non200_spec { status := 404, items := some [] } (by decide)

/-! Claim C6: the empty-result guard aborts the pipeline before merging. -/

/-- Claim C6: when either article's fetched item list is empty, the pipeline
stops with the empty-result error before any merged table or chart data is
produced. -/
theorem pipeline_empty_guard_spec (items1 items2 : List Item)
    (h : items1 = [] ∨ items2 = []) :
    pipeline items1 items2 = Except.error () := by
  rcases h with h | h <;> subst h <;>
    simp [pipeline, process_data]

/-- Witness for C6: the first list empty, the second one not. -/
theorem pipeline_empty_guard_spec_witness :
    pipeline [] [{ timestamp := some ("2024010100".toList), views := some 5 }]
      = Except.error () :=
  pipeline_empty_guard_spec _ _ (Or.inl rfl)

/-! Claim C1: the outer merge of two disjoint non-empty series. -/

/-- Claim C1: `merged_df` is the outer join keyed by date, sorted ascending
(missing keys last); for non-empty inputs sharing no date, the row count is
the sum of the input lengths and every row has exactly one of the two view
columns populated. -/
theorem merged_df_disjoint_spec (df1 df2 : List DailyRec)
    (h1 : df1 ≠ []) (h2 : df2 ≠ [])
    (hdisj : ∀ r1 ∈ df1, ∀ r2 ∈ df2, r1.date ≠ r2.date) :
    (merged_df df1 df2).length = df1.length + df2.length
    ∧ (∀ row ∈ merged_df df1 df2,
        (row.a.isSome = true ∧ row.b = none)
        ∨ (row.a = none ∧ row.b.isSome = true))
    ∧ (merged_df df1 df2).Pairwise (fun x y => rowLe x y = true) := by
  have hfilter2 : ∀ r1 ∈ df1,
      df2.filter (fun r2 => decide (r2.date = r1.date)) = [] := by
    intro r1 hr1
    apply List.filter_eq_nil_iff.mpr
    intro r2 hr2
    simp only [decide_eq_true_eq]
    intro he
    exact hdisj r1 hr1 r2 hr2 he.symm
  have hright : df2.filter
      (fun r2 => df1.all fun r1 => decide (¬ r1.date = r2.date)) = df2 := by
    apply List.filter_eq_self.mpr
    intro r2 hr2
    rw [List.all_eq_true]
    intro r1 hr1
    simpa using hdisj r1 hr1 r2 hr2
  have houter : outerRows df1 df2 =
      df1.map (fun r => ({ date := r.date, a := some r.views, b := none } : MRow))
      ++ df2.map (fun r2 =>
          ({ date := r2.date, a := none, b := some r2.views } : MRow)) := by
    unfold outerRows
    rw [hright]
    congr 1
    apply concatMap_eq_map
    intro r hr
    rw [hfilter2 r hr]
  refine ⟨?_, ?_, ?_⟩
  · rw [merged_df, length_isort, houter]
    simp
  · intro row hrow
    rw [merged_df, mem_isort, houter, List.mem_append] at hrow
    rcases hrow with hl | hr
    · rcases List.mem_map.mp hl with ⟨r, _, rfl⟩
      left; exact ⟨rfl, rfl⟩
    · rcases List.mem_map.mp hr with ⟨r, _, rfl⟩
      right; exact ⟨rfl, rfl⟩
  · exact pairwise_isort rowLe rowLe_total rowLe_trans _

/-- Witness for C1: two one-row series on different days. -/
theorem merged_df_disjoint_spec_witness :
    (merged_df [{ date := some (2024, 1, 1), views := 10 }]
        [{ date := some (2024, 1, 2), views := 5 }]).length = 2 := by
  have h := (merged_df_disjoint_spec
    [{ date := some (2024, 1, 1), views := 10 }]
    [{ date := some (2024, 1, 2), views := 5 }]
    (by decide) (by decide) (by decide)).1
  simpa using h

/-! Claim C2: the quarterly aggregation. -/

/-- Claim C2: `quarter_df` produces one group per distinct calendar quarter
of the dated rows, sorted ascending by quarter and labelled "Q&lt;n&gt; &lt;year&gt;";
each column's mean ranges over that column's own non-null values in the
group, so the first column's aggregate is unchanged under any change of the
second column (and the mean equals sum of the column's present values over
their count). -/
theorem quarter_df_spec (rows rows2 : List MRow) :
    (quarter_df rows).Pairwise (fun x y => qLe x.q y.q = true)
    ∧ ((quarter_df rows).map (fun e => e.q)).Nodup
    ∧ (∀ e ∈ quarter_df rows,
        e.label = 'Q' :: Nat.toDigits 10 e.q.2 ++ ' ' :: Nat.toDigits 10 e.q.1
        ∧ e.meanA = meanOpt (valsA rows e.q)
        ∧ e.meanB = meanOpt (valsB rows e.q))
    ∧ (∀ q : Nat × Nat,
        (∃ e ∈ quarter_df rows, e.q = q) ↔ q ∈ rows.filterMap qKey)
    ∧ (rows.map (fun r => (r.date, r.a)) = rows2.map (fun r => (r.date, r.a)) →
        (quarter_df rows).map (fun e => (e.q, e.meanA)) =
          (quarter_df rows2).map (fun e => (e.q, e.meanA))) := by
  refine ⟨?_, ?_, ?_, ?_, ?_⟩
  · rw [quarter_df, List.pairwise_map]
    exact pairwise_isort qLe qLe_total qLe_trans _
  · rw [quarter_df, List.map_map]
    have : ((fun e : QRow => e.q) ∘ fun q =>
        (⟨q, meanOpt (valsA rows q), meanOpt (valsB rows q),
          qLabel q⟩ : QRow)) = fun q => q := rfl
    rw [this, List.map_id']
    exact (perm_isort qLe _).symm.nodup (List.nodup_dedup _)
  · intro e he
    rcases List.mem_map.mp he with ⟨q, _, rfl⟩
    exact ⟨rfl, rfl, rfl⟩
  · intro q
    constructor
    · rintro ⟨e, he, rfl⟩
      rcases List.mem_map.mp he with ⟨q0, hq0, rfl⟩
      rw [quarterKeys, mem_isort, List.mem_dedup] at hq0
      exact hq0
    · intro hq
      refine ⟨⟨q, meanOpt (valsA rows q), meanOpt (valsB rows q), qLabel q⟩,
        List.mem_map.mpr ⟨q, ?_, rfl⟩, rfl⟩
      rw [quarterKeys, mem_isort, List.mem_dedup]
      exact hq
  · intro hproj
    have hkeys : rows.filterMap qKey = rows2.filterMap qKey := by
      have e1 : rows.filterMap qKey =
          (rows.map (fun r => (r.date, r.a))).filterMap
            (fun p => p.1.map qOf) := by
        rw [List.filterMap_map]; rfl
      have e2 : rows2.filterMap qKey =
          (rows2.map (fun r => (r.date, r.a))).filterMap
            (fun p => p.1.map qOf) := by
        rw [List.filterMap_map]; rfl
      rw [e1, e2, hproj]
    have hvals : ∀ q, valsA rows q = valsA rows2 q := by
      intro q
      have e1 : valsA rows q =
          (rows.map (fun r => (r.date, r.a))).filterMap
            (fun p => if p.1.map qOf = some q
              then p.2.map (fun v => (v : ℚ)) else none) := by
        rw [List.filterMap_map]; rfl
      have e2 : valsA rows2 q =
          (rows2.map (fun r => (r.date, r.a))).filterMap
            (fun p => if p.1.map qOf = some q
              then p.2.map (fun v => (v : ℚ)) else none) := by
        rw [List.filterMap_map]; rfl
      rw [e1, e2, hproj]
    rw [quarter_df, quarter_df, quarterKeys, quarterKeys, hkeys,
      List.map_map, List.map_map]
    apply List.map_congr_left
    intro q _
    simp only [Function.comp]
    rw [hvals q]

/-- Witness for C2: two rows in one quarter, one with a missing second
column; the first column's quarterly mean is unaffected. -/
theorem quarter_df_spec_witness :
    (quarter_df [{ date := some (2024, 1, 1), a := some 10, b := none },
        { date := some (2024, 1, 2), a := some 20, b := some 5 }]).map
      (fun e => (e.q, e.meanA)) =
    (quarter_df [{ date := some (2024, 1, 1), a := some 10, b := some 7 },
        { date := some (2024, 1, 2), a := some 20, b := some 5 }]).map
      (fun e => (e.q, e.meanA)) :=
  (quarter_df_spec
    [{ date := some (2024, 1, 1), a := some 10, b := none },
     { date := some (2024, 1, 2), a := some 20, b := some 5 }]
    [{ date := some (2024, 1, 1), a := some 10, b := some 7 },
     { date := some (2024, 1, 2), a := some 20, b := some 5 }]).2.2.2.2
    (by decide)

/-! Claim C7: null dates from bad timestamps, default views, and the
exclusion of null-date rows from the quarterly aggregation. -/

theorem filterMap_filter_dateSome {β : Type} (f : MRow → Option β)
    (hf : ∀ r : MRow, r.date = none → f r = none) (rows : List MRow) :
    (rows.filter (fun r => r.date.isSome)).filterMap f = rows.filterMap f := by
  induction rows with
  | nil => rfl
  | cons r rs ih =>
    by_cases hd : r.date.isSome = true
    · have hfil : List.filter (fun r : MRow => r.date.isSome) (r :: rs)
          = r :: List.filter (fun r : MRow => r.date.isSome) rs := by
        simp [List.filter_cons, hd]
      rw [hfil]
      cases hfr : f r with
      | none => simp [List.filterMap_cons, hfr, ih]
      | some b => simp [List.filterMap_cons, hfr, ih]
    · have hd0 : r.date = none := by
        cases hr : r.date
        · rfl
        · rw [hr] at hd; simp at hd
      have hfil : List.filter (fun r : MRow => r.date.isSome) (r :: rs)
          = List.filter (fun r : MRow => r.date.isSome) rs := by
        simp [List.filter_cons, hd0]
      rw [hfil, List.filterMap_cons, hf r hd0, ih]

theorem quarter_df_ignores_null_dates (rows : List MRow) :
    quarter_df (rows.filter (fun r => r.date.isSome)) = quarter_df rows := by
  have hkeys : (rows.filter (fun r => r.date.isSome)).filterMap qKey =
      rows.filterMap qKey :=
    filterMap_filter_dateSome qKey (fun r hr => by simp [qKey, hr]) rows
  have hvA : ∀ q, valsA (rows.filter (fun r => r.date.isSome)) q =
      valsA rows q := by
    intro q
    exact filterMap_filter_dateSome _ (fun r hr => by simp [hr]) rows
  have hvB : ∀ q, valsB (rows.filter (fun r => r.date.isSome)) q =
      valsB rows q := by
    intro q
    exact filterMap_filter_dateSome _ (fun r hr => by simp [hr]) rows
  rw [quarter_df, quarter_df, quarterKeys, quarterKeys, hkeys]
  apply List.map_congr_left
  intro q _
  rw [hvA q, hvB q]

/-- Claim C7: on a successful response, an item whose timestamp does not
parse as YYYYMMDDHH yields a record with a null date (the fetch is not
aborted: the output still has one record per item), an item without a views
field yields the count 0, and rows with a null date are excluded from the
quarterly aggregation. -/
theorem process_data_null_date_spec (items : List Item) (i : Nat) (it : Item)
    (hit : items[i]? = some it) (rows : List MRow) :
    (parse_item_date (it.timestamp.getD []) = none →
      ((process_data items)[i]?).map DailyRec.date = some none)
    ∧ (it.views = none →
      ((process_data items)[i]?).map DailyRec.views = some 0)
    ∧ (process_data items).length = items.length
    ∧ quarter_df (rows.filter (fun r => r.date.isSome)) = quarter_df rows := by
  have hget : (process_data items)[i]? = some (mkRecord it) := by
    rw [process_data, List.getElem?_map, hit]
    rfl
  refine ⟨?_, ?_, ?_, quarter_df_ignores_null_dates rows⟩
  · intro hp
    rw [hget]
    simp [mkRecord, hp]
  · intro hv
    rw [hget]
    simp [mkRecord, hv]
  · rw [process_data, List.length_map]

/-- Witness for C7: a response whose first item has the timestamp "bad" and
no views field, next to a well-formed item. -/
theorem process_data_null_date_spec_witness :
    ((process_data [{ timestamp := some ("bad".toList), views := none },
        { timestamp := some ("2024010100".toList), views := some 3 }])[0]?).map
      DailyRec.date = some none :=
  (process_data_null_date_spec
    [{ timestamp := some ("bad".toList), views := none },
     { timestamp := some ("2024010100".toList), views := some 3 }]
    0 { timestamp := some ("bad".toList), views := none } (by decide) []).1
    (by decide)

/-! Claim C10: one record per item, in order; unparsable timestamps are
retained, count toward the non-emptiness guard, and appear as merged rows. -/

/-- Claim C10: `process_data` returns exactly one record per input item in
input order (records with unparsable timestamps included), the pipeline
aborts exactly when an input item list is empty, and every record of the
first series — null-dated ones included — appears as a row of the merged
series carrying its view count in the first column. -/
theorem process_data_records_spec (items1 items2 : List Item) :
    (process_data items1).length = items1.length
    ∧ (∀ i : Nat, (process_data items1)[i]? = (items1[i]?).map mkRecord)
    ∧ (pipeline items1 items2 = Except.error () ↔ items1 = [] ∨ items2 = [])
    ∧ (∀ r ∈ process_data items1,
        ∃ row ∈ merged_df (process_data items1) (process_data items2),
          row.date = r.date ∧ row.a = some r.views) := by
  refine ⟨List.length_map _ _, fun i => List.getElem?_map _ _ _, ?_, ?_⟩
  · rcases Decidable.em (items1 = [] ∨ items2 = []) with hor | hor
    · have hc : ((process_data items1).isEmpty
          || (process_data items2).isEmpty) = true := by
        rcases hor with h | h <;> subst h <;> simp [process_data]
      rw [pipeline]
      simp only [hc]
      simp [hor]
    · have hc : ¬ (((process_data items1).isEmpty
          || (process_data items2).isEmpty) = true) := by
        simp only [Bool.or_eq_true, List.isEmpty_iff, process_data,
          List.map_eq_nil]
        exact hor
      rw [pipeline]
      simp only [Bool.not_eq_true] at hc
      simp only [hc]
      simp [hor]
  · intro r hr
    rw [process_data] at hr
    have hmem : ∃ row ∈ outerRows (process_data items1) (process_data items2),
        row.date = r.date ∧ row.a = some r.views := by
      rw [outerRows]
      cases hms : (process_data items2).filter
          (fun r2 => decide (r2.date = r.date)) with
      | nil =>
        refine ⟨{ date := r.date, a := some r.views, b := none },
          List.mem_append_left _ ?_, rfl, rfl⟩
        apply mem_concatMap _ _ r _ (by rw [process_data]; exact hr)
        rw [hms]
        exact List.mem_singleton.mpr rfl
      | cons m rest =>
        refine ⟨{ date := r.date, a := some r.views, b := some m.views },
          List.mem_append_left _ ?_, rfl, rfl⟩
        apply mem_concatMap _ _ r _ (by rw [process_data]; exact hr)
        rw [hms]
        exact List.mem_map.mpr ⟨m, List.mem_cons_self m rest, rfl⟩
    rcases hmem with ⟨row, hrow, hprop⟩
    exact ⟨row, by rw [merged_df, mem_isort]; exact hrow, hprop⟩

/-- Witness for C10: a series containing a null-dated record appears in full
in the merged result. -/
theorem process_data_records_spec_witness :
    ∃ row ∈ merged_df
        (process_data [{ timestamp := some ("bad".toList), views := some 9 }])
        (process_data
          [⟨some ("2024010100".toList), some 3⟩]),
      row.date = none ∧ row.a = some 9 := by
  have h := (process_data_records_spec
    [{ timestamp := some ("bad".toList), views := some 9 }]
    [{ timestamp := some ("2024010100".toList), views := some 3 }]).2.2.2
    { date := none, views := 9 } (by decide)
  simpa using h

/-! List facts used for the URL analysis. -/

theorem takeWhile_app_of_all {p : Char → Bool} (l1 l2 : List Char)
    (h : ∀ x ∈ l1, p x = true) :
    List.takeWhile p (l1 ++ l2) = l1 ++ List.takeWhile p l2 := by
  induction l1 with
  | nil => rfl
  | cons c cs ih =>
    rw [List.cons_append, List.takeWhile_cons,
      if_pos (h c (List.mem_cons_self c cs)), List.cons_append,
      ih (fun x hx => h x (List.mem_cons_of_mem c hx))]

theorem takeWhile_all {p : Char → Bool} (l : List Char)
    (h : ∀ x ∈ l, p x = true) : List.takeWhile p l = l := by
  have := takeWhile_app_of_all l [] h
  simpa using this

theorem dropWhile_app_of_all {p : Char → Bool} (l1 l2 : List Char)
    (h : ∀ x ∈ l1, p x = true) :
    List.dropWhile p (l1 ++ l2) = List.dropWhile p l2 := by
  induction l1 with
  | nil => rfl
  | cons c cs ih =>
    rw [List.cons_append, List.dropWhile_cons,
      if_pos (h c (List.mem_cons_self c cs)),
      ih (fun x hx => h x (List.mem_cons_of_mem c hx))]

theorem splitParams_no_semi (p : List Char) (h : ';' ∉ p) :
    splitParams p = p := by
  unfold splitParams
  by_cases hs : '/' ∈ p
  · rw [if_pos hs]
    have hseg : (p.reverse.takeWhile
        (fun c => decide (c ≠ '/'))).reverse.takeWhile
        (fun c => decide (c ≠ ';')) =
        (p.reverse.takeWhile (fun c => decide (c ≠ '/'))).reverse := by
      apply takeWhile_all
      intro x hx
      have hx1 : x ∈ p.reverse.takeWhile (fun c => decide (c ≠ '/')) :=
        List.mem_reverse.mp hx
      have hx2 : x ∈ p := by
        have := (List.takeWhile_prefix
          (l := p.reverse) (fun c => decide (c ≠ '/'))).subset hx1
        exact List.mem_reverse.mp this
      simp only [decide_eq_true_eq]
      intro he
      rw [he] at hx2
      exact h hx2
    rw [hseg, ← List.reverse_append, List.takeWhile_append_dropWhile,
      List.reverse_reverse]
  · rw [if_neg hs]
    apply takeWhile_all
    intro x hx
    simp only [decide_eq_true_eq]
    intro he
    rw [he] at hx
    exact h hx

theorem splitFirst_of_isPrefixOf (sep s : List Char)
    (h : sep.isPrefixOf s = true) (hs : s ≠ []) :
    splitFirst sep s = some ([], s.drop sep.length) := by
  cases s with
  | nil => exact absurd rfl hs
  | cons c rest => rw [splitFirst, if_pos h]

theorem isPrefixOf_append_of_le (sep L m : List Char)
    (h : sep.length ≤ L.length) :
    sep.isPrefixOf (L ++ m) = sep.isPrefixOf L := by
  have hiff : (sep.isPrefixOf (L ++ m) = true) ↔ (sep.isPrefixOf L = true) := by
    rw [List.isPrefixOf_iff_prefix, List.isPrefixOf_iff_prefix,
      List.prefix_iff_eq_take, List.prefix_iff_eq_take,
      List.take_append_of_le_length h]
  cases ha : sep.isPrefixOf (L ++ m) <;> cases hb : sep.isPrefixOf L <;>
    simp_all

theorem wikiSep_eq_head_slash : wikiSep = wikiHead ++ ['/'] := rfl

theorem splitFirst_append_wikiSep (a b : List Char)
    (ha : splitFirst wikiSep (a ++ wikiHead) = none) :
    splitFirst wikiSep (a ++ (wikiSep ++ b)) = some (a, b) := by
  induction a with
  | nil =>
    rw [List.nil_append,
      splitFirst_of_isPrefixOf wikiSep (wikiSep ++ b)
        (List.isPrefixOf_iff_prefix.mpr (List.prefix_append wikiSep b))
        (by simp [wikiSep]),
      List.drop_left]
  | cons c a' ih =>
    have hshape : c :: (a' ++ (wikiSep ++ b)) =
        (c :: (a' ++ wikiHead)) ++ ('/' :: b) := by
      rw [wikiSep_eq_head_slash]
      simp [List.append_assoc]
    rw [List.cons_append] at ha ⊢
    rw [splitFirst] at ha
    split at ha
    · exact Option.noConfusion ha
    · rename_i hnp
      have ha' : splitFirst wikiSep (a' ++ wikiHead) = none := by
        cases hrec : splitFirst wikiSep (a' ++ wikiHead) with
        | none => rfl
        | some p => rw [hrec] at ha; simp at ha
      have hlen : wikiSep.length ≤ (c :: (a' ++ wikiHead)).length := by
        simp [wikiSep, wikiHead]
      have hpre : wikiSep.isPrefixOf (c :: (a' ++ (wikiSep ++ b))) = false := by
        rw [hshape, isPrefixOf_append_of_le wikiSep _ _ hlen]
        cases hv : wikiSep.isPrefixOf (c :: (a' ++ wikiHead)) with
        | false => rfl
        | true => exact absurd hv hnp
      rw [splitFirst, hpre]
      simp only [Bool.false_eq_true, if_false]
      rw [ih ha']
      rfl

/-! Computation of `urlparse_path` on well-formed article URLs. -/

theorem sanitizeUrl_https (tail : List Char) :
    sanitizeUrl (httpsPrefix ++ tail) =
      httpsPrefix ++ tail.filter (fun c => !unsafeUrlChar c) := by
  unfold sanitizeUrl
  have hdp : List.dropWhile ctrlOrSpace (httpsPrefix ++ tail)
      = httpsPrefix ++ tail := by
    show List.dropWhile ctrlOrSpace
      ('h' :: (['t', 't', 'p', 's', ':', '/', '/'] ++ tail)) = _
    rw [List.dropWhile_cons, if_neg (by decide)]
    rfl
  rw [hdp, List.filter_append]
  congr 1

theorem dropScheme_https (rest : List Char) :
    dropScheme (httpsPrefix ++ rest) = '/' :: '/' :: rest := by
  have hpre : List.takeWhile (fun c => decide (c ≠ ':')) (httpsPrefix ++ rest)
      = ['h', 't', 't', 'p', 's'] := by
    show List.takeWhile (fun c => decide (c ≠ ':'))
      ('h' :: 't' :: 't' :: 'p' :: 's' :: (':' :: ('/' :: '/' :: rest))) = _
    rw [List.takeWhile_cons, if_pos (by decide), List.takeWhile_cons,
      if_pos (by decide), List.takeWhile_cons, if_pos (by decide),
      List.takeWhile_cons, if_pos (by decide), List.takeWhile_cons,
      if_pos (by decide), List.takeWhile_cons, if_neg (by decide)]
  unfold dropScheme
  rw [hpre]
  have hlen : (['h', 't', 't', 'p', 's'] : List Char).length
      < (httpsPrefix ++ rest).length := by
    simp [httpsPrefix]
  rw [if_pos hlen]
  show (if ('h'.isAlpha && List.all ['t', 't', 'p', 's'] schemeChar) = true
      then List.drop ((['h', 't', 't', 'p', 's'] : List Char).length + 1)
        (httpsPrefix ++ rest)
      else httpsPrefix ++ rest) = '/' :: '/' :: rest
  rw [if_pos (by decide)]
  rfl

theorem afterNetloc_host (host X : List Char)
    (hhost : ∀ c ∈ host, hostOK c = true) :
    afterNetloc ('/' :: '/' :: (host ++ '/' :: X)) = some ('/' :: X) := by
  have hnd : ∀ c ∈ host, notNetlocDelim c = true := by
    intro c hc
    have h0 := hhost c hc
    simp only [hostOK, Bool.not_eq_eq_eq_not, Bool.not_true, Bool.or_eq_false_iff,
      decide_eq_false_iff_not] at h0
    simp only [notNetlocDelim, Bool.and_eq_true, decide_eq_true_eq]
    tauto
  have hbr : ∀ c ∈ host, c ≠ '[' ∧ c ≠ ']' := by
    intro c hc
    have h0 := hhost c hc
    simp only [hostOK, Bool.not_eq_eq_eq_not, Bool.not_true, Bool.or_eq_false_iff,
      decide_eq_false_iff_not] at h0
    tauto
  have htw : List.takeWhile notNetlocDelim (host ++ '/' :: X) = host := by
    rw [takeWhile_app_of_all host _ hnd, List.takeWhile_cons, if_neg (by decide),
      List.append_nil]
  have hdw : List.dropWhile notNetlocDelim (host ++ '/' :: X) = '/' :: X := by
    rw [dropWhile_app_of_all host _ hnd, List.dropWhile_cons, if_neg (by decide)]
  show (if ('[' ∈ List.takeWhile notNetlocDelim (host ++ '/' :: X)
        ∧ ']' ∉ List.takeWhile notNetlocDelim (host ++ '/' :: X))
      ∨ (']' ∈ List.takeWhile notNetlocDelim (host ++ '/' :: X)
        ∧ '[' ∉ List.takeWhile notNetlocDelim (host ++ '/' :: X)) then none
    else some (List.dropWhile notNetlocDelim (host ++ '/' :: X)))
    = some ('/' :: X)
  rw [htw, hdw, if_neg ?_]
  rintro (⟨h1, _⟩ | ⟨h1, _⟩)
  · exact (hbr '[' h1).1 rfl
  · exact (hbr ']' h1).2 rfl

theorem urlparse_path_https (host p0 : List Char)
    (hhost : ∀ c ∈ host, hostOK c = true) :
    urlparse_path (httpsPrefix ++ (host ++ '/' :: p0)) =
      some (splitParams
        ((('/' :: p0.filter (fun c => !unsafeUrlChar c)).takeWhile
          (fun c => decide (c ≠ '#'))).takeWhile
            (fun c => decide (c ≠ '?')))) := by
  have hfhost : host.filter (fun c => !unsafeUrlChar c) = host :=
    List.filter_eq_self.mpr (fun c hc => by
      have h0 := hhost c hc
      simp only [hostOK, Bool.not_eq_eq_eq_not, Bool.not_true,
        Bool.or_eq_false_iff, decide_eq_false_iff_not] at h0
      simp only [unsafeUrlChar, Bool.not_eq_eq_eq_not, Bool.not_true,
        Bool.or_eq_false_iff, decide_eq_false_iff_not]
      tauto)
  have hkey : (host ++ '/' :: p0).filter (fun c => !unsafeUrlChar c)
      = host ++ '/' :: p0.filter (fun c => !unsafeUrlChar c) := by
    rw [List.filter_append, hfhost, List.filter_cons, if_pos (by decide)]
  unfold urlparse_path
  rw [sanitizeUrl_https, hkey, dropScheme_https, afterNetloc_host _ _ hhost]

/-- All separator characters are ordinary path characters. -/
theorem wikiSep_chars :
    ∀ c ∈ wikiSep, decide (c ≠ '#') = true ∧ decide (c ≠ '?') = true
      ∧ c ≠ ';' ∧ (!unsafeUrlChar c) = true := by
  decide

theorem titleOK_chars (t : List Char) (ht : ∀ c ∈ t, titleOK c = true) :
    ∀ c ∈ t, decide (c ≠ '#') = true ∧ decide (c ≠ '?') = true
      ∧ c ≠ ';' ∧ (!unsafeUrlChar c) = true := by
  intro c hc
  have h0 := ht c hc
  simp only [titleOK, Bool.not_eq_eq_eq_not, Bool.not_true,
    Bool.or_eq_false_iff, decide_eq_false_iff_not] at h0
  simp only [unsafeUrlChar, decide_eq_true_eq, Bool.not_eq_eq_eq_not,
    Bool.not_true, Bool.or_eq_false_iff, decide_eq_false_iff_not]
  tauto

theorem filter_titleOK (t : List Char) (ht : ∀ c ∈ t, titleOK c = true) :
    t.filter (fun c => !unsafeUrlChar c) = t :=
  List.filter_eq_self.mpr (fun c hc => (titleOK_chars t ht c hc).2.2.2)

theorem splitParams_wiki (t : List Char) (ht : ∀ c ∈ t, titleOK c = true) :
    splitParams (wikiSep ++ t) = wikiSep ++ t := by
  apply splitParams_no_semi
  intro hmem
  rcases List.mem_append.mp hmem with h | h
  · exact (wikiSep_chars ';' h).2.2.1 rfl
  · exact (titleOK_chars t ht ';' h).2.2.1 rfl

theorem path_cut_plain (t : List Char) (ht : ∀ c ∈ t, titleOK c = true) :
    splitParams (((wikiSep ++ t).takeWhile (fun c => decide (c ≠ '#'))).takeWhile
      (fun c => decide (c ≠ '?'))) = wikiSep ++ t := by
  have h1 : (wikiSep ++ t).takeWhile (fun c => decide (c ≠ '#'))
      = wikiSep ++ t := by
    apply takeWhile_all
    intro c hc
    rcases List.mem_append.mp hc with h | h
    · exact (wikiSep_chars c h).1
    · exact (titleOK_chars t ht c h).1
  have h2 : (wikiSep ++ t).takeWhile (fun c => decide (c ≠ '?'))
      = wikiSep ++ t := by
    apply takeWhile_all
    intro c hc
    rcases List.mem_append.mp hc with h | h
    · exact (wikiSep_chars c h).2.1
    · exact (titleOK_chars t ht c h).2.1
  rw [h1, h2, splitParams_wiki t ht]

theorem sep_title_chars (t : List Char) (ht : ∀ c ∈ t, titleOK c = true) :
    ∀ c ∈ wikiSep ++ t, decide (c ≠ '#') = true ∧ decide (c ≠ '?') = true := by
  intro c hc
  rcases List.mem_append.mp hc with h | h
  · exact ⟨(wikiSep_chars c h).1, (wikiSep_chars c h).2.1⟩
  · exact ⟨(titleOK_chars t ht c h).1, (titleOK_chars t ht c h).2.1⟩

theorem path_cut_query (t q2 : List Char) (ht : ∀ c ∈ t, titleOK c = true) :
    splitParams ((((wikiSep ++ t) ++ '?' :: q2).takeWhile
      (fun c => decide (c ≠ '#'))).takeWhile (fun c => decide (c ≠ '?')))
      = wikiSep ++ t := by
  rw [takeWhile_app_of_all _ _ (fun c hc => (sep_title_chars t ht c hc).1),
    List.takeWhile_cons, if_pos (by decide),
    takeWhile_app_of_all _ _ (fun c hc => (sep_title_chars t ht c hc).2),
    List.takeWhile_cons, if_neg (by decide), List.append_nil]
  exact splitParams_wiki t ht

theorem path_cut_frag (t f2 : List Char) (ht : ∀ c ∈ t, titleOK c = true) :
    splitParams ((((wikiSep ++ t) ++ '#' :: f2).takeWhile
      (fun c => decide (c ≠ '#'))).takeWhile (fun c => decide (c ≠ '?')))
      = wikiSep ++ t := by
  rw [takeWhile_app_of_all _ _ (fun c hc => (sep_title_chars t ht c hc).1),
    List.takeWhile_cons, if_neg (by decide), List.append_nil,
    takeWhile_all _ (fun c hc => (sep_title_chars t ht c hc).2)]
  exact splitParams_wiki t ht

/-! Computation of `extract_title` on well-formed article URLs. -/

theorem pySplitWikiAux_succ (n : Nat) (s : List Char) :
    pySplitWikiAux (n + 1) s = match splitFirst wikiSep s with
      | none => [s]
      | some (pre, post) => pre :: pySplitWikiAux n post := rfl

theorem extract_title_of_path (url t : List Char)
    (hp : urlparse_path url = some (wikiSep ++ t)) :
    extract_title url = Except.ok (match splitFirst wikiSep t with
      | none => t
      | some (pre, _) => pre) := by
  have hpre : wikiSep.isPrefixOf (wikiSep ++ t) = true :=
    List.isPrefixOf_iff_prefix.mpr (List.prefix_append wikiSep t)
  have hsf : splitFirst wikiSep (wikiSep ++ t) = some ([], t) := by
    rw [splitFirst_of_isPrefixOf wikiSep _ hpre (by simp [wikiSep]),
      List.drop_left]
  have hlen : (wikiSep ++ t).length = (t.length + 5) + 1 := by
    simp [wikiSep]
  have hsplit : pySplitWiki (wikiSep ++ t)
      = [] :: (match splitFirst wikiSep t with
        | none => [t]
        | some (pre, post) => pre :: pySplitWikiAux (t.length + 4) post) := by
    rw [pySplitWiki, hlen, pySplitWikiAux_succ, hsf]
    show [] :: pySplitWikiAux (t.length + 4 + 1) t = _
    rw [pySplitWikiAux_succ]
  unfold extract_title
  rw [hp]
  show (if wikiSep.isPrefixOf (wikiSep ++ t) = true then
      Except.ok ((pySplitWiki (wikiSep ++ t)).getD 1 [])
    else Except.error TitleError.invalidURL) = _
  rw [if_pos hpre, hsplit]
  cases hsp : splitFirst wikiSep t with
  | none => rfl
  | some p => rfl

theorem extract_title_https (host t : List Char)
    (hhost : ∀ c ∈ host, hostOK c = true) (ht : ∀ c ∈ t, titleOK c = true) :
    extract_title (httpsPrefix ++ host ++ wikiSep ++ t)
      = Except.ok (match splitFirst wikiSep t with
        | none => t
        | some (pre, _) => pre) := by
  have hshape : httpsPrefix ++ host ++ wikiSep ++ t
      = httpsPrefix ++ (host ++ '/' :: (['w', 'i', 'k', 'i', '/'] ++ t)) := by
    simp [wikiSep, List.append_assoc]
  have hf : (['w', 'i', 'k', 'i', '/'] ++ t).filter (fun c => !unsafeUrlChar c)
      = ['w', 'i', 'k', 'i', '/'] ++ t := by
    rw [List.filter_append, filter_titleOK t ht]
    congr 1
  have hp : urlparse_path (httpsPrefix ++ host ++ wikiSep ++ t)
      = some (wikiSep ++ t) := by
    rw [hshape, urlparse_path_https _ _ hhost, hf]
    show some (splitParams (((wikiSep ++ t).takeWhile
      (fun c => decide (c ≠ '#'))).takeWhile (fun c => decide (c ≠ '?')))) = _
    rw [path_cut_plain t ht]
  exact extract_title_of_path _ _ hp

/-! Claim C3 (corrected): extract_title of .../wiki/&lt;Title&gt;. -/

/-- Counterexample for C3: for the URL https://en.wikipedia.org/wiki/A/wiki/B
the path remainder after "/wiki/" is "A/wiki/B", but `extract_title` returns
only "A", because `split("/wiki/")` cuts again at the second separator. -/
theorem extract_title_nested_wiki_cx :
    extract_title ("https://en.wikipedia.org/wiki/A/wiki/B".toList)
      = Except.ok ['A']
    ∧ (['A'] : List Char) ≠ "A/wiki/B".toList := by
  exact ⟨rfl, by decide⟩

/-- Claim C3 (amended): for a well-formed article URL whose title carries no
query/fragment/params delimiter, no character that `urlsplit` strips, and no
embedded "/wiki/", `extract_title` returns exactly the literal title (it
performs no percent-decoding); and whenever the parsed path does not begin
with "/wiki/" it raises the InvalidURL error. -/
theorem extract_title_amended_spec :
    (∀ host t : List Char, (∀ c ∈ host, hostOK c = true) →
      (∀ c ∈ t, titleOK c = true) → splitFirst wikiSep t = none →
      extract_title (httpsPrefix ++ host ++ wikiSep ++ t) = Except.ok t)
    ∧ (∀ url p : List Char, urlparse_path url = some p →
      wikiSep.isPrefixOf p = false →
      extract_title url = Except.error TitleError.invalidURL) := by
  constructor
  · intro host t hhost ht hnw
    rw [extract_title_https host t hhost ht, hnw]
  · intro url p hp hnpre
    unfold extract_title
    rw [hp]
    show (if wikiSep.isPrefixOf p = true then
        Except.ok ((pySplitWiki p).getD 1 [])
      else Except.error TitleError.invalidURL) = _
    rw [hnpre]
    simp

/-- Witness for C3 (amended): an ordinary article URL. -/
theorem extract_title_amended_spec_witness :
    extract_title (httpsPrefix ++ "en.wikipedia.org".toList ++ wikiSep
      ++ "Albert_Einstein".toList) = Except.ok ("Albert_Einstein".toList) :=
  extract_title_amended_spec.1 ("en.wikipedia.org".toList)
    ("Albert_Einstein".toList) (by decide) (by decide) (by decide)

/-! Claim C8 (corrected): the produced identifier can be empty. -/

/-- Counterexample for C8: for the URL whose path is exactly "/wiki/",
`extract_title` succeeds and returns the empty identifier instead of raising
a hard error. -/
theorem extract_title_empty_title_cx :
    extract_title ("https://en.wikipedia.org/wiki/".toList)
      = Except.ok ([] : List Char) := rfl

/-- Claim C8 (amended): `extract_title` succeeds exactly on parsed paths
beginning with "/wiki/", and on the path exactly "/wiki/" it succeeds with
the empty identifier (no non-emptiness check is performed). -/
theorem extract_title_empty_amended_spec (url p : List Char)
    (hp : urlparse_path url = some p) :
    (wikiSep.isPrefixOf p = true → ∃ t, extract_title url = Except.ok t)
    ∧ (wikiSep.isPrefixOf p = false →
        extract_title url = Except.error TitleError.invalidURL)
    ∧ (p = wikiSep → extract_title url = Except.ok ([] : List Char)) := by
  refine ⟨?_, ?_, ?_⟩
  · intro hpre
    refine ⟨(pySplitWiki p).getD 1 [], ?_⟩
    unfold extract_title
    rw [hp]
    show (if wikiSep.isPrefixOf p = true then
        Except.ok ((pySplitWiki p).getD 1 [])
      else Except.error TitleError.invalidURL) = _
    rw [if_pos hpre]
  · intro hnpre
    unfold extract_title
    rw [hp]
    show (if wikiSep.isPrefixOf p = true then
        Except.ok ((pySplitWiki p).getD 1 [])
      else Except.error TitleError.invalidURL) = _
    rw [hnpre]
    simp
  · intro hpe
    subst hpe
    unfold extract_title
    rw [hp]
    show (if wikiSep.isPrefixOf wikiSep = true then
        Except.ok ((pySplitWiki wikiSep).getD 1 [])
      else Except.error TitleError.invalidURL) = _
    rw [if_pos (by decide)]
    rfl

/-- Witness for C8 (amended): a URL whose path starts with "/wiki/". -/
theorem extract_title_empty_amended_spec_witness :
    ∃ t, extract_title ("https://en.wikipedia.org/wiki/Foo".toList)
      = Except.ok t :=
  (extract_title_empty_amended_spec
    ("https://en.wikipedia.org/wiki/Foo".toList)
    (wikiSep ++ "Foo".toList) rfl).1 (by decide)

/-! Claim C9: a second "/wiki/" truncates the identifier; query strings and
fragments are never part of it. -/

/-- Claim C9: when the path continues with a second "/wiki/", `extract_title`
returns only the portion between the two separators, not the full remainder;
and a query string or fragment after the path never reaches the returned
identifier. -/
theorem extract_title_second_wiki_spec :
    (∀ host a b : List Char, (∀ c ∈ host, hostOK c = true) →
      (∀ c ∈ a, titleOK c = true) → (∀ c ∈ b, titleOK c = true) →
      splitFirst wikiSep (a ++ wikiHead) = none →
      extract_title (httpsPrefix ++ host ++ wikiSep ++ (a ++ (wikiSep ++ b)))
        = Except.ok a)
    ∧ (∀ host t q : List Char, (∀ c ∈ host, hostOK c = true) →
      (∀ c ∈ t, titleOK c = true) → splitFirst wikiSep t = none →
      extract_title (httpsPrefix ++ host ++ wikiSep ++ (t ++ '?' :: q))
        = Except.ok t)
    ∧ (∀ host t f2 : List Char, (∀ c ∈ host, hostOK c = true) →
      (∀ c ∈ t, titleOK c = true) → splitFirst wikiSep t = none →
      extract_title (httpsPrefix ++ host ++ wikiSep ++ (t ++ '#' :: f2))
        = Except.ok t) := by
  refine ⟨?_, ?_, ?_⟩
  · intro host a b hhost ha hb hnw
    have hws : ∀ c ∈ wikiSep, titleOK c = true := by decide
    have hT : ∀ c ∈ a ++ (wikiSep ++ b), titleOK c = true := by
      intro c hc
      rcases List.mem_append.mp hc with h | h
      · exact ha c h
      · rcases List.mem_append.mp h with h2 | h2
        · exact hws c h2
        · exact hb c h2
    rw [extract_title_https host (a ++ (wikiSep ++ b)) hhost hT,
      splitFirst_append_wikiSep a b hnw]
  · intro host t q hhost ht hnw
    have hshape : httpsPrefix ++ host ++ wikiSep ++ (t ++ '?' :: q)
        = httpsPrefix ++ (host ++ '/' ::
            (['w', 'i', 'k', 'i', '/'] ++ (t ++ '?' :: q))) := by
      simp [wikiSep, List.append_assoc]
    have hfq : (['w', 'i', 'k', 'i', '/'] ++ (t ++ '?' :: q)).filter
        (fun c => !unsafeUrlChar c)
        = ['w', 'i', 'k', 'i', '/']
          ++ (t ++ '?' :: q.filter (fun c => !unsafeUrlChar c)) := by
      rw [List.filter_append, List.filter_append, filter_titleOK t ht,
        List.filter_cons, if_pos (by decide)]
      congr 1
    have hp : urlparse_path (httpsPrefix ++ host ++ wikiSep ++ (t ++ '?' :: q))
        = some (wikiSep ++ t) := by
      rw [hshape, urlparse_path_https _ _ hhost, hfq]
      show some (splitParams ((((wikiSep ++ t)
        ++ '?' :: q.filter (fun c => !unsafeUrlChar c)).takeWhile
          (fun c => decide (c ≠ '#'))).takeWhile
            (fun c => decide (c ≠ '?')))) = _
      rw [path_cut_query t _ ht]
    rw [extract_title_of_path _ _ hp, hnw]
  · intro host t f2 hhost ht hnw
    have hshape : httpsPrefix ++ host ++ wikiSep ++ (t ++ '#' :: f2)
        = httpsPrefix ++ (host ++ '/' ::
            (['w', 'i', 'k', 'i', '/'] ++ (t ++ '#' :: f2))) := by
      simp [wikiSep, List.append_assoc]
    have hff : (['w', 'i', 'k', 'i', '/'] ++ (t ++ '#' :: f2)).filter
        (fun c => !unsafeUrlChar c)
        = ['w', 'i', 'k', 'i', '/']
          ++ (t ++ '#' :: f2.filter (fun c => !unsafeUrlChar c)) := by
      rw [List.filter_append, List.filter_append, filter_titleOK t ht,
        List.filter_cons, if_pos (by decide)]
      congr 1
    have hp : urlparse_path (httpsPrefix ++ host ++ wikiSep ++ (t ++ '#' :: f2))
        = some (wikiSep ++ t) := by
      rw [hshape, urlparse_path_https _ _ hhost, hff]
      show some (splitParams ((((wikiSep ++ t)
        ++ '#' :: f2.filter (fun c => !unsafeUrlChar c)).takeWhile
          (fun c => decide (c ≠ '#'))).takeWhile
            (fun c => decide (c ≠ '?')))) = _
      rw [path_cut_frag t _ ht]
    rw [extract_title_of_path _ _ hp, hnw]

/-- Witness for C9: the URL https://en.wikipedia.org/wiki/A/wiki/B, built
from its components, yields only "A". -/
theorem extract_title_second_wiki_spec_witness :
    extract_title (httpsPrefix ++ "en.wikipedia.org".toList ++ wikiSep
      ++ ("A".toList ++ (wikiSep ++ "B".toList)))
      = Except.ok ("A".toList) :=
  extract_title_second_wiki_spec.1 ("en.wikipedia.org".toList)
    ("A".toList) ("B".toList) (by decide) (by decide) (by decide) (by decide)

/-! Digit facts. -/

theorem digitChar_dig? {c : Char} {v : Nat} (h : dig? c = some v) :
    digitChar v = c := by
  unfold dig? at h
  split at h <;> simp_all <;> subst h <;> rfl

theorem dig?_le9 {c : Char} {v : Nat} (h : dig? c = some v) : v ≤ 9 := by
  unfold dig? at h
  split at h <;> simp_all <;> omega

theorem dig?_digitChar {v : Nat} (h : v ≤ 9) : dig? (digitChar v) = some v := by
  interval_cases v <;> rfl

/-! Forward and backward lemmas for the alternation engine. -/

theorem tryAlts_cons_pos {α : Type} {f : List Char → Option (Nat × List Char)}
    {fs : List (List Char → Option (Nat × List Char))} {s : List Char}
    {k : Nat → List Char → Option α} {v : Nat} {rest : List Char} {r : α}
    (h1 : f s = some (v, rest)) (h2 : k v rest = some r) :
    tryAlts (f :: fs) s k = some r := by
  rw [tryAlts, h1]
  show (match k v rest with
    | some r => some r
    | none => tryAlts fs s k) = some r
  rw [h2]

theorem tryAlts_cons_neg {α : Type} {f : List Char → Option (Nat × List Char)}
    {fs : List (List Char → Option (Nat × List Char))} {s : List Char}
    {k : Nat → List Char → Option α} (h1 : f s = none) :
    tryAlts (f :: fs) s k = tryAlts fs s k := by
  rw [tryAlts, h1]

theorem tryAlts_eq_some {α : Type}
    (alts : List (List Char → Option (Nat × List Char))) (s : List Char)
    (k : Nat → List Char → Option α) (r : α)
    (h : tryAlts alts s k = some r) :
    ∃ f ∈ alts, ∃ v rest, f s = some (v, rest) ∧ k v rest = some r := by
  induction alts with
  | nil => rw [tryAlts] at h; exact absurd h (by simp)
  | cons f fs ih =>
    rw [tryAlts] at h
    cases hfs : f s with
    | none =>
      rw [hfs] at h
      obtain ⟨g, hg, v, rest, h1, h2⟩ := ih h
      exact ⟨g, List.mem_cons_of_mem f hg, v, rest, h1, h2⟩
    | some p =>
      obtain ⟨v, rest⟩ := p
      rw [hfs] at h
      have h0 : (match k v rest with
          | some r => some r
          | none => tryAlts fs s k) = some r := h
      cases hk : k v rest with
      | none =>
        rw [hk] at h0
        obtain ⟨g, hg, v2, rest2, h1, h2⟩ := ih h0
        exact ⟨g, List.mem_cons_of_mem f hg, v2, rest2, h1, h2⟩
      | some r0 =>
        rw [hk] at h0
        simp only [Option.some.injEq] at h0
        subst h0
        exact ⟨f, List.mem_cons_self f fs, v, rest, hfs, hk⟩

theorem litDash_eq_some {α : Type} (k : List Char → Option α) (s : List Char)
    (r : α) (h : litDash k s = some r) :
    ∃ r2, s = '-' :: r2 ∧ k r2 = some r := by
  unfold litDash at h
  split at h
  · rename_i r2
    exact ⟨r2, rfl, h⟩
  · exact absurd h (by simp)

/-! Inversion of the token matchers. -/

theorem tok10to12_inv {s : List Char} {v : Nat} {rest : List Char}
    (h : tok10to12 s = some (v, rest)) :
    ∃ c v2, s = '1' :: c :: rest ∧ dig? c = some v2 ∧ v2 ≤ 2
      ∧ v = 10 + v2 := by
  unfold tok10to12 at h
  split at h
  · rename_i c r
    split at h
    · rename_i v2 hd
      split at h
      · simp only [Option.some.injEq, Prod.mk.injEq] at h
        exact ⟨c, v2, by rw [h.2], hd, by assumption, h.1.symm⟩
      · exact absurd h (by simp)
    · exact absurd h (by simp)
  · exact absurd h (by simp)

theorem tok01to09_inv {s : List Char} {v : Nat} {rest : List Char}
    (h : tok01to09 s = some (v, rest)) :
    ∃ c, s = '0' :: c :: rest ∧ dig? c = some v ∧ 1 ≤ v := by
  unfold tok01to09 at h
  split at h
  · rename_i c r
    split at h
    · rename_i v2 hd
      split at h
      · simp only [Option.some.injEq, Prod.mk.injEq] at h
        refine ⟨c, by rw [h.2], ?_, ?_⟩
        · rw [h.1] at hd; exact hd
        · rw [← h.1]; assumption
      · exact absurd h (by simp)
    · exact absurd h (by simp)
  · exact absurd h (by simp)

theorem tok1to9_inv {s : List Char} {v : Nat} {rest : List Char}
    (h : tok1to9 s = some (v, rest)) :
    ∃ c, s = c :: rest ∧ dig? c = some v ∧ 1 ≤ v := by
  unfold tok1to9 at h
  split at h
  · rename_i c r
    split at h
    · rename_i v2 hd
      split at h
      · simp only [Option.some.injEq, Prod.mk.injEq] at h
        refine ⟨c, by rw [h.2], ?_, ?_⟩
        · rw [h.1] at hd; exact hd
        · rw [← h.1]; assumption
      · exact absurd h (by simp)
    · exact absurd h (by simp)
  · exact absurd h (by simp)

theorem tokSpace1to9_inv {s : List Char} {v : Nat} {rest : List Char}
    (h : tokSpace1to9 s = some (v, rest)) :
    ∃ c, s = ' ' :: c :: rest ∧ dig? c = some v ∧ 1 ≤ v := by
  unfold tokSpace1to9 at h
  split at h
  · rename_i c r
    split at h
    · rename_i v2 hd
      split at h
      · simp only [Option.some.injEq, Prod.mk.injEq] at h
        refine ⟨c, by rw [h.2], ?_, ?_⟩
        · rw [h.1] at hd; exact hd
        · rw [← h.1]; assumption
      · exact absurd h (by simp)
    · exact absurd h (by simp)
  · exact absurd h (by simp)

theorem tok30to31_inv {s : List Char} {v : Nat} {rest : List Char}
    (h : tok30to31 s = some (v, rest)) :
    ∃ c v2, s = '3' :: c :: rest ∧ dig? c = some v2 ∧ v2 ≤ 1
      ∧ v = 30 + v2 := by
  unfold tok30to31 at h
  split at h
  · rename_i c r
    split at h
    · rename_i v2 hd
      split at h
      · simp only [Option.some.injEq, Prod.mk.injEq] at h
        exact ⟨c, v2, by rw [h.2], hd, by assumption, h.1.symm⟩
      · exact absurd h (by simp)
    · exact absurd h (by simp)
  · exact absurd h (by simp)

theorem tok10to29_inv {s : List Char} {v : Nat} {rest : List Char}
    (h : tok10to29 s = some (v, rest)) :
    ∃ c1 c2 v1 v2, s = c1 :: c2 :: rest ∧ dig? c1 = some v1
      ∧ dig? c2 = some v2 ∧ 1 ≤ v1 ∧ v1 ≤ 2 ∧ v = 10 * v1 + v2 := by
  unfold tok10to29 at h
  split at h
  · rename_i c1 c2 r
    split at h
    · rename_i v1 v2 hd1 hd2
      split at h
      · rename_i hv1
        simp only [Option.some.injEq, Prod.mk.injEq] at h
        exact ⟨c1, c2, v1, v2, by rw [h.2], hd1, hd2, hv1.1, hv1.2, h.1.symm⟩
      · exact absurd h (by simp)
    · exact absurd h (by simp)
  · exact absurd h (by simp)

/-! Inversion of the year matcher. -/

theorem matchY_inv {s : List Char} {y : Nat} {rest : List Char}
    (h : matchY s = some (y, rest)) :
    ∃ c1 c2 c3 c4 v1 v2 v3 v4, s = c1 :: c2 :: c3 :: c4 :: rest
      ∧ dig? c1 = some v1 ∧ dig? c2 = some v2 ∧ dig? c3 = some v3
      ∧ dig? c4 = some v4
      ∧ y = 1000 * v1 + 100 * v2 + 10 * v3 + v4 := by
  unfold matchY at h
  split at h
  · rename_i c1 c2 c3 c4 r
    split at h
    · rename_i v1 v2 v3 v4 h1 h2 h3 h4
      simp only [Option.some.injEq, Prod.mk.injEq] at h
      exact ⟨c1, c2, c3, c4, v1, v2, v3, v4, by rw [h.2], h1, h2, h3, h4,
        h.1.symm⟩
    · exact absurd h (by simp)
  · exact absurd h (by simp)

theorem litDash_cons {α : Type} (k : List Char → Option α) (r : List Char) :
    litDash k ('-' :: r) = k r := rfl

theorem tryAlts_mAlts_inv {α : Type} {s : List Char}
    {k : Nat → List Char → Option α} {r : α}
    (h : tryAlts mAlts s k = some r) :
    ∃ mt v rest, s = mt ++ rest ∧ monthTokVal mt v ∧ k v rest = some r := by
  obtain ⟨f, hf, v, rest, hfs, hk⟩ := tryAlts_eq_some _ _ _ _ h
  simp only [mAlts, List.mem_cons, List.not_mem_nil, or_false] at hf
  rcases hf with rfl | rfl | rfl
  · obtain ⟨c, v2, hs, hd, hle, hv⟩ := tok10to12_inv hfs
    exact ⟨['1', c], v, rest, by rw [hs]; rfl,
      Or.inl ⟨c, v2, rfl, hd, hle, hv⟩, hk⟩
  · obtain ⟨c, hs, hd, hle⟩ := tok01to09_inv hfs
    exact ⟨['0', c], v, rest, by rw [hs]; rfl,
      Or.inr (Or.inl ⟨c, v, rfl, hd, hle, rfl⟩), hk⟩
  · obtain ⟨c, hs, hd, hle⟩ := tok1to9_inv hfs
    exact ⟨[c], v, rest, by rw [hs]; rfl,
      Or.inr (Or.inr ⟨c, rfl, hd, hle⟩), hk⟩

theorem tryAlts_dAlts_inv {α : Type} {s : List Char}
    {k : Nat → List Char → Option α} {r : α}
    (h : tryAlts dAlts s k = some r) :
    ∃ dt v rest, s = dt ++ rest ∧ dayTokVal dt v ∧ k v rest = some r := by
  obtain ⟨f, hf, v, rest, hfs, hk⟩ := tryAlts_eq_some _ _ _ _ h
  simp only [dAlts, List.mem_cons, List.not_mem_nil, or_false] at hf
  rcases hf with rfl | rfl | rfl | rfl | rfl
  · obtain ⟨c, v2, hs, hd, hle, hv⟩ := tok30to31_inv hfs
    exact ⟨['3', c], v, rest, by rw [hs]; rfl,
      Or.inl ⟨c, v2, rfl, hd, hle, hv⟩, hk⟩
  · obtain ⟨c1, c2, v1, v2, hs, hd1, hd2, hge, hle, hv⟩ := tok10to29_inv hfs
    exact ⟨[c1, c2], v, rest, by rw [hs]; rfl,
      Or.inr (Or.inl ⟨c1, c2, v1, v2, rfl, hd1, hd2, hge, hle, hv⟩), hk⟩
  · obtain ⟨c, hs, hd, hle⟩ := tok01to09_inv hfs
    exact ⟨['0', c], v, rest, by rw [hs]; rfl,
      Or.inr (Or.inr (Or.inl ⟨c, v, rfl, hd, hle, rfl⟩)), hk⟩
  · obtain ⟨c, hs, hd, hle⟩ := tok1to9_inv hfs
    exact ⟨[c], v, rest, by rw [hs]; rfl,
      Or.inr (Or.inr (Or.inr (Or.inl ⟨c, rfl, hd, hle⟩))), hk⟩
  · obtain ⟨c, hs, hd, hle⟩ := tokSpace1to9_inv hfs
    exact ⟨[' ', c], v, rest, by rw [hs]; rfl,
      Or.inr (Or.inr (Or.inr (Or.inr ⟨c, v, rfl, hd, hle, rfl⟩))), hk⟩

theorem strpIsoShape_inv {s : List Char} {y m d : Nat}
    (h : strpIsoShape s = some (y, m, d)) :
    ∃ c1 c2 c3 c4 v1 v2 v3 v4 mt dt,
      s = c1 :: c2 :: c3 :: c4 :: '-' :: (mt ++ '-' :: dt)
      ∧ dig? c1 = some v1 ∧ dig? c2 = some v2 ∧ dig? c3 = some v3
      ∧ dig? c4 = some v4 ∧ y = 1000 * v1 + 100 * v2 + 10 * v3 + v4
      ∧ monthTokVal mt m ∧ dayTokVal dt d := by
  unfold strpIsoShape at h
  cases hY : matchY s with
  | none => rw [hY] at h; exact absurd h (by simp)
  | some p =>
    obtain ⟨y0, s1⟩ := p
    rw [hY, Option.some_bind] at h
    have h0 : litDash (fun s2 =>
        tryAlts mAlts s2 (fun m0 s3 =>
          litDash (fun s4 =>
            tryAlts dAlts s4 (fun d0 s5 =>
              if s5 = [] then some (y0, m0, d0) else none)) s3)) s1
        = some (y, m, d) := h
    obtain ⟨s2, hs1, h1⟩ := litDash_eq_some _ _ _ h0
    obtain ⟨mt, mv, s3, hs2, hmTok, h2⟩ := tryAlts_mAlts_inv h1
    have h2x : litDash (fun s4 =>
        tryAlts dAlts s4 (fun d0 s5 =>
          if s5 = [] then some (y0, mv, d0) else none)) s3
        = some (y, m, d) := h2
    obtain ⟨s4, hs3, h3⟩ := litDash_eq_some _ _ _ h2x
    obtain ⟨dt, dv, s5, hs4, hdTok, h4⟩ := tryAlts_dAlts_inv h3
    have h4x : (if s5 = [] then some (y0, mv, dv) else none)
        = some (y, m, d) := h4
    split at h4x
    · rename_i hs5
      simp only [Option.some.injEq, Prod.mk.injEq] at h4x
      obtain ⟨hyy, hmm, hdd⟩ := h4x
      obtain ⟨c1, c2, c3, c4, v1, v2, v3, v4, hsY, hg1, hg2, hg3, hg4, hyv⟩ :=
        matchY_inv hY
      refine ⟨c1, c2, c3, c4, v1, v2, v3, v4, mt, dt, ?_, hg1, hg2, hg3, hg4,
        ?_, ?_, ?_⟩
      · rw [hsY, hs1, hs2, hs3, hs4, hs5]
        simp
      · omega
      · rw [← hmm]; exact hmTok
      · rw [← hdd]; exact hdTok
    · exact absurd h4x (by simp)

/-! Forward evaluation of the parser on zero-padded renderings. -/

theorem daysInMonth_le31 (y m : Nat) : daysInMonth y m ≤ 31 := by
  unfold daysInMonth
  split
  · split <;> omega
  · split <;> omega

theorem matchY_pad4 (y : Nat) (hy : y ≤ 9999) (rest : List Char) :
    matchY (pad4 y ++ rest) = some (y, rest) := by
  have h1 : y / 1000 ≤ 9 := by omega
  have h2 : y / 100 % 10 ≤ 9 := by omega
  have h3 : y / 10 % 10 ≤ 9 := by omega
  have h4 : y % 10 ≤ 9 := by omega
  have hval : 1000 * (y / 1000) + 100 * (y / 100 % 10) + 10 * (y / 10 % 10)
      + y % 10 = y := by omega
  simp only [pad4, List.cons_append, List.nil_append, matchY,
    dig?_digitChar h1, dig?_digitChar h2, dig?_digitChar h3, dig?_digitChar h4,
    hval]

theorem month_step {α : Type} (m : Nat) (h1 : 1 ≤ m) (h2 : m ≤ 12)
    (rest : List Char) (k : Nat → List Char → Option α) (r : α)
    (hk : k m rest = some r) :
    tryAlts mAlts (pad2 m ++ rest) k = some r := by
  by_cases hm : m ≤ 9
  · have hp : pad2 m = ['0', digitChar m] := by
      unfold pad2
      have e1 : m / 10 = 0 := by omega
      have e2 : m % 10 = m := by omega
      rw [e1, e2]
      rfl
    rw [hp]
    simp only [List.cons_append, List.nil_append, mAlts]
    rw [tryAlts_cons_neg rfl]
    have hpos : tok01to09 ('0' :: digitChar m :: rest) = some (m, rest) := by
      simp only [tok01to09, dig?_digitChar hm]
      rw [if_pos h1]
    exact tryAlts_cons_pos hpos hk
  · have hd10 : m / 10 = 1 := by omega
    have hp : pad2 m = ['1', digitChar (m % 10)] := by
      unfold pad2
      rw [hd10]
      rfl
    rw [hp]
    simp only [List.cons_append, List.nil_append, mAlts]
    have hpos : tok10to12 ('1' :: digitChar (m % 10) :: rest)
        = some (m, rest) := by
      simp only [tok10to12, dig?_digitChar (by omega : m % 10 ≤ 9)]
      rw [if_pos (by omega : m % 10 ≤ 2)]
      have : 10 + m % 10 = m := by omega
      rw [this]
    exact tryAlts_cons_pos hpos hk

theorem day_step {α : Type} (d : Nat) (h1 : 1 ≤ d) (h2 : d ≤ 31)
    (rest : List Char) (k : Nat → List Char → Option α) (r : α)
    (hk : k d rest = some r) :
    tryAlts dAlts (pad2 d ++ rest) k = some r := by
  by_cases hd9 : d ≤ 9
  · have hp : pad2 d = ['0', digitChar d] := by
      unfold pad2
      have e1 : d / 10 = 0 := by omega
      have e2 : d % 10 = d := by omega
      rw [e1, e2]
      rfl
    rw [hp]
    simp only [List.cons_append, List.nil_append, dAlts]
    rw [tryAlts_cons_neg rfl]
    have hn2 : tok10to29 ('0' :: digitChar d :: rest) = none := by
      have h00 : dig? '0' = some 0 := rfl
      simp only [tok10to29, h00, dig?_digitChar hd9]
      rw [if_neg (by omega)]
    rw [tryAlts_cons_neg hn2]
    have hpos : tok01to09 ('0' :: digitChar d :: rest) = some (d, rest) := by
      simp only [tok01to09, dig?_digitChar hd9]
      rw [if_pos h1]
    exact tryAlts_cons_pos hpos hk
  · by_cases hd29 : d ≤ 29
    · have hq : d / 10 = 1 ∨ d / 10 = 2 := by omega
      have hv : 10 * (d / 10) + d % 10 = d := by omega
      rcases hq with hq | hq
      · have hp : pad2 d = ['1', digitChar (d % 10)] := by
          unfold pad2
          rw [hq]
          rfl
        rw [hp]
        simp only [List.cons_append, List.nil_append, dAlts]
        rw [tryAlts_cons_neg rfl]
        have hpos : tok10to29 ('1' :: digitChar (d % 10) :: rest)
            = some (d, rest) := by
          have h01 : dig? '1' = some 1 := rfl
          simp only [tok10to29, h01, dig?_digitChar (by omega : d % 10 ≤ 9)]
          rw [if_pos (by omega)]
          rw [hq] at hv
          simp only [hv]
        exact tryAlts_cons_pos hpos hk
      · have hp : pad2 d = ['2', digitChar (d % 10)] := by
          unfold pad2
          rw [hq]
          rfl
        rw [hp]
        simp only [List.cons_append, List.nil_append, dAlts]
        rw [tryAlts_cons_neg rfl]
        have hpos : tok10to29 ('2' :: digitChar (d % 10) :: rest)
            = some (d, rest) := by
          have h02 : dig? '2' = some 2 := rfl
          simp only [tok10to29, h02, dig?_digitChar (by omega : d % 10 ≤ 9)]
          rw [if_pos (by omega)]
          rw [hq] at hv
          simp only [hv]
        exact tryAlts_cons_pos hpos hk
    · have hq : d / 10 = 3 := by omega
      have hp : pad2 d = ['3', digitChar (d % 10)] := by
        unfold pad2
        rw [hq]
        rfl
      rw [hp]
      simp only [List.cons_append, List.nil_append, dAlts]
      have hpos : tok30to31 ('3' :: digitChar (d % 10) :: rest)
          = some (d, rest) := by
        simp only [tok30to31, dig?_digitChar (by omega : d % 10 ≤ 9)]
        rw [if_pos (by omega : d % 10 ≤ 1)]
        have : 30 + d % 10 = d := by omega
        rw [this]
      exact tryAlts_cons_pos hpos hk

theorem strptime_iso_of_format (y m dd : Nat) (hy1 : 1 ≤ y) (hy2 : y ≤ 9999)
    (hm1 : 1 ≤ m) (hm2 : m ≤ 12) (hd1 : 1 ≤ dd)
    (hd2 : dd ≤ daysInMonth y m) :
    strptime_iso (dateFormatISO y m dd) = some (y, m, dd) := by
  have hd31 : dd ≤ 31 := le_trans hd2 (daysInMonth_le31 y m)
  have hshape : strpIsoShape (dateFormatISO y m dd) = some (y, m, dd) := by
    unfold strpIsoShape dateFormatISO
    rw [List.append_assoc, List.cons_append]
    simp only [matchY_pad4 y hy2, Option.some_bind]
    rw [litDash_cons]
    apply month_step m hm1 hm2
    show litDash (fun s4 =>
        tryAlts dAlts s4 (fun d0 s5 =>
          if s5 = [] then some (y, m, d0) else none)) ('-' :: pad2 dd)
      = some (y, m, dd)
    rw [litDash_cons, ← List.append_nil (pad2 dd)]
    apply day_step dd hd1 hd31
    show (if ([] : List Char) = [] then some (y, m, dd) else none)
      = some (y, m, dd)
    rw [if_pos rfl]
  unfold strptime_iso
  rw [hshape]
  show (if 1 ≤ y ∧ dd ≤ daysInMonth y m then some (y, m, dd) else none)
    = some (y, m, dd)
  rw [if_pos ⟨hy1, hd2⟩]

theorem strictForm_format (y m dd : Nat) (hy2 : y ≤ 9999) (hm2 : m ≤ 12)
    (hd31 : dd ≤ 31) :
    strictForm (dateFormatISO y m dd) = true := by
  simp only [dateFormatISO, pad4, pad2, List.append_assoc,
    List.cons_append, List.nil_append,
    strictForm, dig?_digitChar (show y / 1000 ≤ 9 by omega),
    dig?_digitChar (show y / 100 % 10 ≤ 9 by omega),
    dig?_digitChar (show y / 10 % 10 ≤ 9 by omega),
    dig?_digitChar (show y % 10 ≤ 9 by omega),
    dig?_digitChar (show m / 10 ≤ 9 by omega),
    dig?_digitChar (show m % 10 ≤ 9 by omega),
    dig?_digitChar (show dd / 10 ≤ 9 by omega),
    dig?_digitChar (show dd % 10 ≤ 9 by omega)]
  simp

theorem strictForm_inv (s : List Char) (h : strictForm s = true) :
    ∃ a b c d e f g i, s = [a, b, c, d, '-', e, f, '-', g, i]
      ∧ (dig? a).isSome = true ∧ (dig? b).isSome = true
      ∧ (dig? c).isSome = true ∧ (dig? d).isSome = true
      ∧ (dig? e).isSome = true ∧ (dig? f).isSome = true
      ∧ (dig? g).isSome = true ∧ (dig? i).isSome = true := by
  unfold strictForm at h
  split at h
  · rename_i a b c d e f g i
    simp only [Bool.and_eq_true] at h
    exact ⟨a, b, c, d, e, f, g, i, rfl, by tauto, by tauto, by tauto, by tauto,
      by tauto, by tauto, by tauto, by tauto⟩
  · exact absurd h (by simp)

theorem strict_round_trip (s : List Char) (y m dd : Nat)
    (h : strptime_iso s = some (y, m, dd)) (hstrict : strictForm s = true) :
    dateFormatISO y m dd = s := by
  unfold strptime_iso at h
  cases hsh : strpIsoShape s with
  | none => rw [hsh] at h; exact absurd h (by simp)
  | some p =>
    obtain ⟨y0, m0, d0⟩ := p
    rw [hsh] at h
    have hval : (if 1 ≤ y0 ∧ d0 ≤ daysInMonth y0 m0
        then some (y0, m0, d0) else none) = some (y, m, dd) := h
    have hval2 : y0 = y ∧ m0 = m ∧ d0 = dd := by
      split at hval
      · simpa using hval
      · exact absurd hval (by simp)
    obtain ⟨rfl, rfl, rfl⟩ := hval2
    obtain ⟨c1, c2, c3, c4, v1, v2, v3, v4, mt, dt, hsB, hg1, hg2, hg3, hg4,
      hyv, hmT, hdT⟩ := strpIsoShape_inv hsh
    obtain ⟨a, b, c, d, e, f, g, i, hsA, ha, hb, hc, hd, he, hf, hg, hi⟩ :=
      strictForm_inv s hstrict
    have heq : [a, b, c, d, '-', e, f, '-', g, i]
        = c1 :: c2 :: c3 :: c4 :: '-' :: (mt ++ '-' :: dt) :=
      hsA.symm.trans hsB
    have hv1 : v1 ≤ 9 := dig?_le9 hg1
    have hv2 : v2 ≤ 9 := dig?_le9 hg2
    have hv3 : v3 ≤ 9 := dig?_le9 hg3
    have hv4 : v4 ≤ 9 := dig?_le9 hg4
    have hp4 : pad4 y0 = [c1, c2, c3, c4] := by
      unfold pad4
      rw [show y0 / 1000 = v1 by omega, show y0 / 100 % 10 = v2 by omega,
        show y0 / 10 % 10 = v3 by omega, show y0 % 10 = v4 by omega,
        digitChar_dig? hg1, digitChar_dig? hg2, digitChar_dig? hg3,
        digitChar_dig? hg4]
    rcases hmT with ⟨cm, u2, hmt, hdm, hu2, hmv⟩
      | ⟨cm, u2, hmt, hdm, hu2, hmv⟩ | ⟨cm, hmt, hdm, hu1⟩
    · -- month token "10".."12"
      subst hmt
      have hu9 : u2 ≤ 9 := dig?_le9 hdm
      have hpm : pad2 m0 = ['1', cm] := by
        unfold pad2
        rw [show m0 / 10 = 1 by omega, show m0 % 10 = u2 by omega,
          digitChar_dig? hdm]
        rfl
      rcases hdT with ⟨cd, w, hdt, hddg, hw, hdv⟩
        | ⟨cd1, cd2, w1, w2, hdt, hdd1, hdd2, hw1, hw2, hdv⟩
        | ⟨cd, w, hdt, hddg, hw, hdv⟩ | ⟨cd, hdt, hddg, hw⟩
        | ⟨cd, w, hdt, hddg, hw, hdv⟩
      · subst hdt
        have hw9 : w ≤ 9 := dig?_le9 hddg
        have hpd : pad2 d0 = ['3', cd] := by
          unfold pad2
          rw [show d0 / 10 = 3 by omega, show d0 % 10 = w by omega,
            digitChar_dig? hddg]
          rfl
        rw [hsB]
        unfold dateFormatISO
        rw [hp4, hpm, hpd]
        simp
      · subst hdt
        have hw9a : w1 ≤ 9 := dig?_le9 hdd1
        have hw9b : w2 ≤ 9 := dig?_le9 hdd2
        have hpd : pad2 d0 = [cd1, cd2] := by
          unfold pad2
          rw [show d0 / 10 = w1 by omega, show d0 % 10 = w2 by omega,
            digitChar_dig? hdd1, digitChar_dig? hdd2]
        rw [hsB]
        unfold dateFormatISO
        rw [hp4, hpm, hpd]
        simp
      · subst hdt
        have hw9 : w ≤ 9 := dig?_le9 hddg
        have hpd : pad2 d0 = ['0', cd] := by
          unfold pad2
          rw [show d0 / 10 = 0 by omega, show d0 % 10 = w by omega,
            digitChar_dig? hddg]
          rfl
        rw [hsB]
        unfold dateFormatISO
        rw [hp4, hpm, hpd]
        simp
      · subst hdt
        simp only [List.cons_append, List.nil_append, List.cons.injEq] at heq
        simp at heq
      · -- space-padded day token: the strict shape forces a digit where the
        -- space would have to sit, a contradiction
        subst hdt
        simp only [List.cons_append, List.nil_append, List.cons.injEq] at heq
        have hgsp : g = ' ' := by tauto
        rw [hgsp] at hg
        exact absurd hg (by decide)
    · -- month token "01".."09"
      subst hmt
      have hu9 : u2 ≤ 9 := dig?_le9 hdm
      have hpm : pad2 m0 = ['0', cm] := by
        unfold pad2
        rw [show m0 / 10 = 0 by omega, show m0 % 10 = u2 by omega,
          digitChar_dig? hdm]
        rfl
      rcases hdT with ⟨cd, w, hdt, hddg, hw, hdv⟩
        | ⟨cd1, cd2, w1, w2, hdt, hdd1, hdd2, hw1, hw2, hdv⟩
        | ⟨cd, w, hdt, hddg, hw, hdv⟩ | ⟨cd, hdt, hddg, hw⟩
        | ⟨cd, w, hdt, hddg, hw, hdv⟩
      · subst hdt
        have hw9 : w ≤ 9 := dig?_le9 hddg
        have hpd : pad2 d0 = ['3', cd] := by
          unfold pad2
          rw [show d0 / 10 = 3 by omega, show d0 % 10 = w by omega,
            digitChar_dig? hddg]
          rfl
        rw [hsB]
        unfold dateFormatISO
        rw [hp4, hpm, hpd]
        simp
      · subst hdt
        have hw9a : w1 ≤ 9 := dig?_le9 hdd1
        have hw9b : w2 ≤ 9 := dig?_le9 hdd2
        have hpd : pad2 d0 = [cd1, cd2] := by
          unfold pad2
          rw [show d0 / 10 = w1 by omega, show d0 % 10 = w2 by omega,
            digitChar_dig? hdd1, digitChar_dig? hdd2]
        rw [hsB]
        unfold dateFormatISO
        rw [hp4, hpm, hpd]
        simp
      · subst hdt
        have hw9 : w ≤ 9 := dig?_le9 hddg
        have hpd : pad2 d0 = ['0', cd] := by
          unfold pad2
          rw [show d0 / 10 = 0 by omega, show d0 % 10 = w by omega,
            digitChar_dig? hddg]
          rfl
        rw [hsB]
        unfold dateFormatISO
        rw [hp4, hpm, hpd]
        simp
      · subst hdt
        simp only [List.cons_append, List.nil_append, List.cons.injEq] at heq
        simp at heq
      · -- space-padded day token: the strict shape forces a digit where the
        -- space would have to sit, a contradiction
        subst hdt
        simp only [List.cons_append, List.nil_append, List.cons.injEq] at heq
        have hgsp : g = ' ' := by tauto
        rw [hgsp] at hg
        exact absurd hg (by decide)
    · -- month token a single digit: the strict shape forces a digit where the
      -- second dash of the input would have to sit, a contradiction
      subst hmt
      simp only [List.cons_append, List.nil_append, List.cons.injEq] at heq
      have hfdash : f = '-' := by tauto
      rw [hfdash] at hf
      exact absurd hf (by decide)

/-! Claim C4 (corrected): date parsing is lenient, not strict. -/

/-- Counterexample for C4: "2024-1-2" does not match strict YYYY-MM-DD, yet
the code's strptime accepts it (month and day may be a single digit), and the
round trip formats it back as "2024-01-02", not "2024-1-2". -/
theorem strptime_lenient_cx :
    strictForm ("2024-1-2".toList) = false
    ∧ strptime_iso ("2024-1-2".toList) = some (2024, 1, 2)
    ∧ dateFormatISO 2024 1 2 ≠ "2024-1-2".toList :=
  ⟨rfl, rfl, by decide⟩

/-- Claim C4 (amended): on ASCII input, date parsing accepts exactly the
lenient shape — a four-digit year, a dash, a month of one or two digits, a
dash, a day of one or two digits or a space followed by one digit, denoting
a valid calendar date.  Every ASCII string outside that shape is rejected
(non-ASCII strings are out of scope, since the regex class \d also matches
non-ASCII Unicode decimal digits); every valid date rendered in strict
zero-padded YYYY-MM-DD form is accepted; and for accepted strings in strict
form the round trip format(parse(s)) = s holds. -/
theorem date_parse_amended_spec :
    (∀ (s : List Char) (r : Nat × Nat × Nat), (∀ c ∈ s, c.toNat < 128) →
      strptime_iso s = some r → lenientShape s)
    ∧ (∀ y m d : Nat, validDate y m d →
      strptime_iso (dateFormatISO y m d) = some (y, m, d)
      ∧ strictForm (dateFormatISO y m d) = true)
    ∧ (∀ (s : List Char) (y m d : Nat), strptime_iso s = some (y, m, d) →
      strictForm s = true → dateFormatISO y m d = s) := by
  refine ⟨?_, ?_, ?_⟩
  · intro s r _ h
    unfold strptime_iso at h
    cases hsh : strpIsoShape s with
    | none => rw [hsh] at h; exact absurd h (by simp)
    | some p =>
      obtain ⟨y0, m0, d0⟩ := p
      obtain ⟨c1, c2, c3, c4, v1, v2, v3, v4, mt, dt, hs, h1, h2, h3, h4, _,
        hmTok, hdTok⟩ := strpIsoShape_inv hsh
      exact ⟨c1, c2, c3, c4, mt, dt, hs, by simp [h1], by simp [h2],
        by simp [h3], by simp [h4], ⟨m0, hmTok⟩, ⟨d0, hdTok⟩⟩
  · intro y m d hv
    obtain ⟨hy1, hy2, hm1, hm2, hd1, hd2⟩ := hv
    exact ⟨strptime_iso_of_format y m d hy1 hy2 hm1 hm2 hd1 hd2,
      strictForm_format y m d hy2 hm2
        (le_trans hd2 (daysInMonth_le31 y m))⟩
  · intro s y m d h hstrict
    exact strict_round_trip s y m d h hstrict

/-- Witness for C4 (amended): the ASCII string "2024-1- 2" (single-digit
month, space-padded day) is accepted and lies in the lenient shape, and the
strict string "2024-01-02" parses and formats back to itself. -/
theorem date_parse_amended_spec_witness :
    lenientShape ("2024-1- 2".toList)
    ∧ dateFormatISO 2024 1 2 = "2024-01-02".toList :=
  ⟨date_parse_amended_spec.1 ("2024-1- 2".toList) (2024, 1, 2)
      (by decide) rfl,
    date_parse_amended_spec.2.2 ("2024-01-02".toList) 2024 1 2 rfl rfl⟩

end WikiPyApp
